import Mathlib

/-!
Verification of the AtMyApp CLI definition-processing pipeline.

This file shallowly embeds the core of the `@atmyapp/cli` repository in Lean:

* a `Json` value model for the JSON-Schema-like structures the CLI
  manipulates (`any`-typed objects in the TypeScript source);
* the definition-processing pipeline of `src/cli/utils/definition-processor.ts`
  (the registry of processors / validators / output transformers, the
  built-ins, `processDefinitions`, `transformOutput`);
* the structural transformers of `src/cli/utils/type-transformers.ts`
  (`extractConstants`, `processSpecialTypes`);
* the output assembler `generateOutput` of
  `src/cli/utils/content-processor.ts` (`determineContentType`,
  `extractEventConfig`);
* the per-schema extraction logic of the sequential path
  (`processAtmyappExport` in `src/cli/utils/schema-processor.ts`) and of the
  parallel worker path (`processEventDefinition` / `processContentDefinition`
  in the worker file processor), together with their aggregation into
  `ProcessingResult`;
* the worker-pool sizing of `src/cli/utils/worker-pool.ts`;
* the collection converter of `src/cli/utils/collection-transformer.ts`.

Modelling conventions:

* JavaScript exceptions are modelled with `Except String`; a thrown value is
  represented by its message string.
* The ambient wall clock (`new Date().toISOString()`) is modelled as a `now`
  string threaded through the `ProcessingContext`.
* JavaScript objects are modelled as ordered association lists with unique
  keys (insertion order); `lookup` is first-match, matching JS property
  access on objects (which cannot carry duplicate keys).
* Logging is ignored except where a claim is about it; the collection
  converter returns its error log explicitly (Writer style).
-/

namespace AtMyApp

/-- JSON-like runtime values: the model for the `any`-typed schema objects
(`structure`, `properties`, `__config`, ...) the CLI manipulates. -/
inductive Json where
  | null
  | bool (b : Bool)
  | num (n : Int)
  | str (s : String)
  | arr (elems : List Json)
  | obj (entries : List (String × Json))

mutual
def beqJson : Json → Json → Bool
  | .null, .null => true
  | .bool a, .bool b => a == b
  | .num a, .num b => a == b
  | .str a, .str b => a == b
  | .arr a, .arr b => beqJsonList a b
  | .obj a, .obj b => beqJsonEntries a b
  | _, _ => false

def beqJsonList : List Json → List Json → Bool
  | [], [] => true
  | a :: as, b :: bs => beqJson a b && beqJsonList as bs
  | _, _ => false

def beqJsonEntries : List (String × Json) → List (String × Json) → Bool
  | [], [] => true
  | (k, v) :: as, (k', v') :: bs => k == k' && beqJson v v' && beqJsonEntries as bs
  | _, _ => false
end

mutual
theorem beqJson_refl : ∀ a : Json, beqJson a a = true
  | .null => rfl
  | .bool a => by simp [beqJson]
  | .num a => by simp [beqJson]
  | .str a => by simp [beqJson]
  | .arr a => by simp [beqJson, beqJsonList_refl a]
  | .obj a => by simp [beqJson, beqJsonEntries_refl a]

theorem beqJsonList_refl : ∀ l : List Json, beqJsonList l l = true
  | [] => rfl
  | a :: as => by simp [beqJsonList, beqJson_refl a, beqJsonList_refl as]

theorem beqJsonEntries_refl : ∀ l : List (String × Json), beqJsonEntries l l = true
  | [] => rfl
  | (k, v) :: as => by simp [beqJsonEntries, beqJson_refl v, beqJsonEntries_refl as]
end

mutual
theorem beqJson_eq : ∀ a b : Json, beqJson a b = true → a = b
  | .null, .null, _ => rfl
  | .bool a, .bool b, h => by simpa [beqJson] using h
  | .num a, .num b, h => by simpa [beqJson] using h
  | .str a, .str b, h => by simpa [beqJson] using h
  | .arr a, .arr b, h => by
      simp only [beqJson] at h
      simp [beqJsonList_eq a b h]
  | .obj a, .obj b, h => by
      simp only [beqJson] at h
      simp [beqJsonEntries_eq a b h]

theorem beqJsonList_eq : ∀ a b : List Json, beqJsonList a b = true → a = b
  | [], [], _ => rfl
  | a :: as, b :: bs, h => by
      simp only [beqJsonList, Bool.and_eq_true] at h
      simp [beqJson_eq a b h.1, beqJsonList_eq as bs h.2]
  | [], _ :: _, h => by simp [beqJsonList] at h
  | _ :: _, [], h => by simp [beqJsonList] at h

theorem beqJsonEntries_eq : ∀ a b : List (String × Json), beqJsonEntries a b = true → a = b
  | [], [], _ => rfl
  | (k, v) :: as, (k', v') :: bs, h => by
      simp only [beqJsonEntries, Bool.and_eq_true] at h
      obtain ⟨⟨h1, h2⟩, h3⟩ := h
      simp [eq_of_beq h1, beqJson_eq v v' h2, beqJsonEntries_eq as bs h3]
  | [], _ :: _, h => by simp [beqJsonEntries] at h
  | _ :: _, [], h => by simp [beqJsonEntries] at h
end

instance : DecidableEq Json := fun a b =>
  if h : beqJson a b = true then isTrue (beqJson_eq a b h)
  else isFalse (fun he => h (he ▸ beqJson_refl a))

/-- JS property access `j[key]` on an object; `undefined` is `none`.
Non-objects have none of the properties this code base reads. -/
def Json.getProp : Json → String → Option Json
  | .obj entries, key => entries.lookup key
  | _, _ => none

/-- Optional-chained property access `j?.a?.b?...`. -/
def Json.getPath (j : Json) : List String → Option Json
  | [] => some j
  | key :: rest =>
    match j.getProp key with
    | some v => v.getPath rest
    | none => none

/-- JS truthiness of a defined value (numbers are modelled as integers, so
there is no `NaN` case). -/
def Json.truthy : Json → Bool
  | .null => false
  | .bool b => b
  | .num n => n != 0
  | .str s => s != ""
  | .arr _ => true
  | .obj _ => true

/-- Truthiness of a possibly-`undefined` value (`undefined` is falsy). -/
def truthyOpt : Option Json → Bool
  | some v => v.truthy
  | none => false

/-- JS `key in obj` (a present key, whatever its value). -/
def Json.hasKey (j : Json) (key : String) : Bool :=
  (j.getProp key).isSome

/-- JS `Object.entries(x)` restricted to the object case; for the primitives
and arrays this code base feeds it, there are no own string-keyed entries
that survive the downstream `typeof`-object checks. -/
def jsEntries : Json → List (String × Json)
  | .obj entries => entries
  | _ => []

end AtMyApp

namespace AtMyApp

/-! ## Definition-processing pipeline (`definition-processor.ts`) -/

/-- One discovered definition (`Content` in `types/migrate`): the `structure`
field is renamed `struct` (`structure` is a Lean keyword). -/
structure Content where
  path : String
  struct : Json
  type : Option String := none
deriving DecidableEq

/-- Validation verdict of one record. -/
structure ValidationResult where
  isValid : Bool
  errors : List String
  warnings : List String
deriving DecidableEq

/-- Context handed to every processor / validator / transformer. The logger
is not modelled; `now` models the ambient wall clock
(`new Date().toISOString()`), the one impurity the built-ins read. -/
structure ProcessingContext where
  config : Json
  allContents : List Content
  currentIndex : Nat
  now : String

/-- A registered processor. `process` may return a new record, `null`
(`none`), or throw (`Except.error` carrying the message). -/
structure DefinitionProcessor where
  name : String
  process : Content → ProcessingContext → Except String (Option Content)

/-- A registered validation rule; `validate` may throw. -/
structure ValidationRule where
  name : String
  validate : Content → ProcessingContext → Except String ValidationResult

/-- One entry of `OutputDefinition.definitions`: `definitions[path] = { type, structure }`. -/
structure DefinitionEntry where
  type : Option String
  struct : Json
deriving DecidableEq

/-- Event configuration `{ columns }`. `columns` is typed `string[]` in the
source but assigned from `any`-typed schema probes, so it is a `Json` here. -/
structure EventConfig where
  columns : Json
deriving DecidableEq

/-- The final output document. `definitions`, `events` and `metadata` are JS
objects, modelled as ordered association lists with unique keys. -/
structure OutputDefinition where
  description : String
  definitions : List (String × DefinitionEntry)
  events : List (String × EventConfig)
  args : Json
  metadata : Option (List (String × Json)) := none

/-- A registered output transformer; `transform` may throw. -/
structure OutputTransformer where
  name : String
  transform : OutputDefinition → ProcessingContext → Except String OutputDefinition

/-- The registry state of the `DefinitionProcessingPipeline` class (its three
private arrays). The process-wide singleton `definitionPipeline` is modelled
by threading this state explicitly. -/
structure DefinitionProcessingPipeline where
  processors : List DefinitionProcessor := []
  outputTransformers : List OutputTransformer := []
  validators : List ValidationRule := []

/-- `definitionPipeline.addProcessor`. -/
def DefinitionProcessingPipeline.addProcessor (pipe : DefinitionProcessingPipeline)
    (processor : DefinitionProcessor) : DefinitionProcessingPipeline :=
  { pipe with processors := pipe.processors ++ [processor] }

/-- `definitionPipeline.addOutputTransformer`. -/
def DefinitionProcessingPipeline.addOutputTransformer (pipe : DefinitionProcessingPipeline)
    (transformer : OutputTransformer) : DefinitionProcessingPipeline :=
  { pipe with outputTransformers := pipe.outputTransformers ++ [transformer] }

/-- `definitionPipeline.addValidator`. -/
def DefinitionProcessingPipeline.addValidator (pipe : DefinitionProcessingPipeline)
    (validator : ValidationRule) : DefinitionProcessingPipeline :=
  { pipe with validators := pipe.validators ++ [validator] }

/-- `definitionPipeline.clear`. -/
def DefinitionProcessingPipeline.clear (_pipe : DefinitionProcessingPipeline) :
    DefinitionProcessingPipeline :=
  { processors := [], outputTransformers := [], validators := [] }

/-- Result shape of `getStats`. -/
structure PipelineStats where
  processors : Nat
  transformers : Nat
  validators : Nat
deriving DecidableEq

/-- `definitionPipeline.getStats`. -/
def DefinitionProcessingPipeline.getStats (pipe : DefinitionProcessingPipeline) : PipelineStats :=
  { processors := pipe.processors.length
    transformers := pipe.outputTransformers.length
    validators := pipe.validators.length }

/-- The `ProcessingContext` built for the record at `index` (the source
builds it inline in `processDefinitions`). -/
def processingContextAt (contents : List Content) (index : Nat) (config : Json)
    (now : String) : ProcessingContext :=
  { config := config, allContents := contents, currentIndex := index, now := now }

/-- One step of the `validateContent` loop over the registered validators:
merge a validator's verdict into the accumulated result; a throwing validator
counts as invalid with an error naming the validator and the message. -/
def validateStep (content : Content) (context : ProcessingContext)
    (result : ValidationResult) (validator : ValidationRule) : ValidationResult :=
  match validator.validate content context with
  | .ok vr =>
      { isValid := result.isValid && vr.isValid
        errors := result.errors ++ vr.errors
        warnings := result.warnings ++ vr.warnings }
  | .error e =>
      { result with
          isValid := false
          errors := result.errors ++ ["Validator " ++ validator.name ++ " failed: " ++ e] }

/-- `DefinitionProcessingPipeline.validateContent` (private method): run every
registered validator, catching exceptions. -/
def validateContent (validators : List ValidationRule) (content : Content)
    (context : ProcessingContext) : ValidationResult :=
  validators.foldl (validateStep content context)
    { isValid := true, errors := [], warnings := [] }

/-- The processor loop of `processDefinitions`: thread the record through the
registered processors in order; `null` or a thrown exception terminates the
chain with the record dropped (`none`). -/
def runProcessors (processors : List DefinitionProcessor) (content : Content)
    (context : ProcessingContext) : Option Content :=
  match processors with
  | [] => some content
  | p :: rest =>
    match p.process content context with
    | .ok (some next) => runProcessors rest next context
    | .ok none => none
    | .error _ => none

/-- Result shape of `processDefinitions`. -/
structure ProcessDefinitionsResult where
  processedContents : List Content
  validationResults : List ValidationResult
deriving DecidableEq

/-- The body of the `contents.forEach` loop of `processDefinitions`,
accumulating `(processedContents, validationResults)`. -/
def processStep (pipe : DefinitionProcessingPipeline) (contents : List Content)
    (config : Json) (now : String) (acc : List Content × List ValidationResult)
    (entry : Nat × Content) : List Content × List ValidationResult :=
  let context := processingContextAt contents entry.1 config now
  let validation := validateContent pipe.validators entry.2 context
  let validationResults := acc.2 ++ [validation]
  if validation.isValid then
    match runProcessors pipe.processors entry.2 context with
    | some processed => (acc.1 ++ [processed], validationResults)
    | none => (acc.1, validationResults)
  else (acc.1, validationResults)

/-- `DefinitionProcessingPipeline.processDefinitions`. -/
def processDefinitions (pipe : DefinitionProcessingPipeline) (contents : List Content)
    (config : Json) (now : String) : ProcessDefinitionsResult :=
  let final := contents.enum.foldl (processStep pipe contents config now) ([], [])
  { processedContents := final.1, validationResults := final.2 }

/-- The fate of the single record at a given index: validated, then (if
valid) threaded through the processors; `none` means dropped. This is the
per-record decomposition of `processDefinitions` used by the theorems. -/
def processRecord (pipe : DefinitionProcessingPipeline) (contents : List Content)
    (config : Json) (now : String) (entry : Nat × Content) : Option Content :=
  let context := processingContextAt contents entry.1 config now
  let validation := validateContent pipe.validators entry.2 context
  if validation.isValid then runProcessors pipe.processors entry.2 context else none

/-- `DefinitionProcessingPipeline.transformOutput`: a reduce over the
registered output transformers; a throwing transformer is skipped, leaving
the output unchanged by that transformer. -/
def transformOutput (pipe : DefinitionProcessingPipeline) (output : OutputDefinition)
    (config : Json) (now : String) : OutputDefinition :=
  let context : ProcessingContext :=
    { config := config, allContents := [], currentIndex := 0, now := now }
  pipe.outputTransformers.foldl
    (fun current transformer =>
      match transformer.transform current context with
      | .ok next => next
      | .error _ => current)
    output

end AtMyApp

namespace AtMyApp

/-! ## Built-in pipeline components (`definition-processor.ts`) -/

/-- JS `String.prototype.split` with a single-character separator,
character-list level (kernel-computable). `"".split(".")` is `[""]`. -/
def splitChar (sep : Char) : List Char → List (List Char)
  | [] => [[]]
  | c :: rest =>
    match splitChar sep rest with
    | [] => [[]]
    | cur :: parts => if c = sep then [] :: cur :: parts else (c :: cur) :: parts

/-- File extension probe `content.path.split(".").pop()?.toLowerCase()`. -/
def fileExt (path : String) : String :=
  ⟨((splitChar '.' path.toList).getLastD []).map Char.toLower⟩

/-- The type string assigned by the built-in type detector. -/
def detectType (content : Content) : String :=
  let ext := fileExt content.path
  if content.struct.getProp "type" = some (.str "event")
      ∨ content.struct.getPath ["properties", "type", "const"] = some (.str "event")
      ∨ content.struct.getProp "__amatype" = some (.str "AmaCustomEventDef") then
    "event"
  else if content.struct.getProp "__amatype" = some (.str "AmaIconDef") then "icon"
  else if content.struct.getProp "__amatype" = some (.str "AmaImageDef") then "image"
  else if content.struct.getProp "__amatype" = some (.str "AmaFileDef") then "file"
  else if ext ∈ ["jpg", "jpeg", "png", "gif", "svg", "webp"] then "image"
  else if ext ∈ ["pdf", "doc", "docx", "txt", "md"] then "file"
  else "jsonx"

/-- `builtInProcessors.typeDetector`. -/
def typeDetector : DefinitionProcessor where
  name := "type-detector"
  process := fun content _context => .ok (some { content with type := some (detectType content) })

/-- Path normalization of `builtInProcessors.pathNormalizer`: replace every
backslash with a forward slash (`.replace(/\\/g, "/")`), then strip leading
slashes (`.replace(/^\/+/, "")`), character-list level. -/
def normalizePath (path : String) : String :=
  ⟨(path.toList.map (fun ch => if ch = '\\' then '/' else ch)).dropWhile (· = '/')⟩

/-- `builtInProcessors.pathNormalizer`. -/
def pathNormalizer : DefinitionProcessor where
  name := "path-normalizer"
  process := fun content _context => .ok (some { content with path := normalizePath content.path })

/-- JS `String.prototype.trim`, character-list level. -/
def jsTrim (s : String) : String :=
  ⟨((s.toList.dropWhile Char.isWhitespace).reverse.dropWhile Char.isWhitespace).reverse⟩

/-- `builtInValidators.pathValidator`. The `typeof content.path !== "string"`
branch is unrepresentable here (`path` is a `String` in the model), so only
the emptiness check remains. -/
def pathValidator : ValidationRule where
  name := "path-validator"
  validate := fun content _context => .ok <|
    if jsTrim content.path = "" then
      { isValid := false, errors := ["Content path cannot be empty"], warnings := [] }
    else
      { isValid := true, errors := [], warnings := [] }

/-- `builtInValidators.duplicatePathValidator`: invalid when any *other*
entry of the full input list shares the exact same path. -/
def duplicatePathValidator : ValidationRule where
  name := "duplicate-path-validator"
  validate := fun content context => .ok <|
    let duplicates := context.allContents.enum.filter
      (fun other => other.1 != context.currentIndex && other.2.path == content.path)
    if duplicates.length > 0 then
      { isValid := false, errors := ["Duplicate path found: " ++ content.path], warnings := [] }
    else
      { isValid := true, errors := [], warnings := [] }

/-- JS object property assignment `obj[key] = value`: overwrite in place if
the key exists, else append. -/
def jsObjectSet {α : Type} (entries : List (String × α)) (key : String) (value : α) :
    List (String × α) :=
  if entries.any (fun kv => kv.1 == key) then
    entries.map (fun kv => if kv.1 == key then (kv.1, value) else kv)
  else entries ++ [(key, value)]

/-- JS object spread `{ ...base, ...overlay }`: overlay entries are assigned
on top of the base in order, so overlay values win on key collision. -/
def spreadMerge (base overlay : List (String × Json)) : List (String × Json) :=
  overlay.foldl (fun acc kv => jsObjectSet acc kv.1 kv.2) base

/-- The fresh metadata object built by `metadataEnricher` before the
caller-supplied `config.metadata` is spread over it. -/
def enricherBaseMetadata (output : OutputDefinition) (now : String) : List (String × Json) :=
  [("generatedAt", .str now),
   ("totalDefinitions", .num (output.definitions.length : Int)),
   ("totalEvents", .num (output.events.length : Int)),
   ("version", .str "1.0.0")]

/-- Caller-supplied metadata `config.metadata || {}` (the code then spreads
it, which only contributes entries when it is an object). -/
def callerMetadata (config : Json) : List (String × Json) :=
  match config.getProp "metadata" with
  | some (.obj entries) => entries
  | _ => []

/-- `builtInOutputTransformers.metadataEnricher`. -/
def metadataEnricher : OutputTransformer where
  name := "metadata-enricher"
  transform := fun output context => .ok
    { output with
        metadata := some (spreadMerge (enricherBaseMetadata output context.now)
          (callerMetadata context.config)) }

/-- `registerBuiltInProcessors`. -/
def registerBuiltInProcessors (pipe : DefinitionProcessingPipeline) :
    DefinitionProcessingPipeline :=
  (pipe.addProcessor pathNormalizer).addProcessor typeDetector

/-- `registerBuiltInValidators`. -/
def registerBuiltInValidators (pipe : DefinitionProcessingPipeline) :
    DefinitionProcessingPipeline :=
  (pipe.addValidator pathValidator).addValidator duplicatePathValidator

/-- `registerBuiltInOutputTransformers`. -/
def registerBuiltInOutputTransformers (pipe : DefinitionProcessingPipeline) :
    DefinitionProcessingPipeline :=
  pipe.addOutputTransformer metadataEnricher

/-- `initializePipeline` (`content-processor.ts`): always register the
built-in components. -/
def initializePipeline (pipe : DefinitionProcessingPipeline) :
    DefinitionProcessingPipeline :=
  registerBuiltInOutputTransformers (registerBuiltInValidators (registerBuiltInProcessors pipe))

end AtMyApp

namespace AtMyApp

/-! ## Structural transformers (`type-transformers.ts`) -/

theorem sizeOf_lookup_lt {entries : List (String × Json)} {key : String} {v : Json}
    (h : entries.lookup key = some v) : sizeOf v < sizeOf entries := by
  induction entries with
  | nil => simp [List.lookup] at h
  | cons kv rest ih =>
    rw [List.lookup] at h
    by_cases hk : key == kv.1
    · obtain ⟨k₀, v₀⟩ := kv
      simp only [hk] at h
      injection h with h
      subst h
      simp
      omega
    · simp only [hk] at h
      have := ih h
      obtain ⟨k₀, v₀⟩ := kv
      simp
      omega

theorem sizeOf_jsEntries_le (j : Json) : sizeOf (jsEntries j) ≤ sizeOf j := by
  cases j <;> simp [jsEntries]

theorem sizeOf_getProp_lt {j v : Json} {key : String} (h : j.getProp key = some v) :
    sizeOf v < sizeOf j := by
  cases j <;> simp [Json.getProp] at h
  case obj entries =>
    have := sizeOf_lookup_lt h
    simp
    omega

mutual
/-- `extractConstants`: rebuild a plain value tree from the `const` leaves of
a schema's `properties`, recursing into nested objects typed `"object"`;
`null` (`none`) when nothing was extracted. -/
def extractConstants (schema : Json) : Option Json :=
  match schema with
  | .obj entries =>
    match hp : entries.lookup "properties" with
    | some props =>
      if props.truthy then
        let result := extractConstantsProps props
        if result = [] then none else some (.obj result)
      else none
    | none => none
  | _ => none
termination_by (sizeOf schema, 0)
decreasing_by
  simp_wf
  have h1 := sizeOf_lookup_lt hp
  omega

/-- `Object.entries(schema.properties)` as seen by the `extractConstants`
loop: string-keyed entries of an object, index-keyed entries of an array
(`typeof` array is `"object"`), nothing for primitives. -/
def extractConstantsProps (props : Json) : List (String × Json) :=
  match props with
  | .obj entries => extractConstantsEntries entries
  | .arr elems => extractConstantsElems 0 elems
  | _ => []
termination_by (sizeOf props, 0)
decreasing_by
  all_goals simp_wf
  all_goals omega

/-- The entries loop of `extractConstants` over an object's properties. -/
def extractConstantsEntries (l : List (String × Json)) : List (String × Json) :=
  match l with
  | [] => []
  | (key, propDef) :: rest => extractConstantsItem key propDef ++ extractConstantsEntries rest
termination_by (sizeOf l, 0)
decreasing_by
  all_goals simp_wf
  all_goals omega

/-- The entries loop of `extractConstants` over an array's index entries. -/
def extractConstantsElems (index : Nat) (l : List Json) : List (String × Json) :=
  match l with
  | [] => []
  | propDef :: rest =>
    extractConstantsItem (toString index) propDef ++ extractConstantsElems (index + 1) rest
termination_by (sizeOf l, 0)
decreasing_by
  all_goals simp_wf
  all_goals omega

/-- One iteration of the `extractConstants` loop: a property with a `const`
key contributes that constant; a nested object typed `"object"` with
`properties` contributes its own extraction when non-null; everything else
is silently omitted. -/
def extractConstantsItem (key : String) (propDef : Json) : List (String × Json) :=
  if propDef.hasKey "const" then [(key, (propDef.getProp "const").getD .null)]
  else if propDef.getProp "type" = some (.str "object") ∧ propDef.hasKey "properties" then
    match extractConstants propDef with
    | some nested => [(key, nested)]
    | none => []
  else []
termination_by (sizeOf propDef, 1)
decreasing_by
  simp_wf
  exact Prod.Lex.right _ (by omega)
end

/-- A registered structural rewrite rule (`TypeTransformer` in
`types/migrate`). -/
structure TypeTransformer where
  canTransform : Json → Bool
  transform : Json → Json

/-- A built-in rule of the `typeTransformers` registry: match an object whose
`properties.__amatype.const` is the given asset marker and that carries a
`__config` property; replace it with the marker plus the constants extracted
from `__config`. The two built-in rules differ only in the marker. -/
def assetTransformer (marker : String) : TypeTransformer where
  canTransform := fun obj =>
    (obj.getPath ["properties", "__amatype", "const"] == some (.str marker))
      && truthyOpt (obj.getPath ["properties", "__config"])
  transform := fun obj =>
    .obj [("__amatype", (obj.getPath ["properties", "__amatype", "const"]).getD .null),
          ("config", (extractConstants ((obj.getPath ["properties", "__config"]).getD .null)).getD .null)]

/-- The built-in `typeTransformers` registry: the AMA image rule, then the
AMA file rule. -/
def typeTransformers : List TypeTransformer :=
  [assetTransformer "AmaImageDef", assetTransformer "AmaFileDef"]

mutual
/-- `processSpecialTypes`: recursively walk a structure; arrays map
element-wise; on an object the first matching registered rule replaces the
node wholesale, otherwise every property is processed recursively;
primitives are returned unchanged. -/
def processSpecialTypes (schema : Json) : Json :=
  match schema with
  | .arr elems => .arr (processSpecialTypesList elems)
  | .obj entries =>
    match typeTransformers.find? (fun t => t.canTransform (.obj entries)) with
    | some t => t.transform (.obj entries)
    | none => .obj (processSpecialTypesEntries entries)
  | j => j

/-- Element-wise walk of `processSpecialTypes` over an array. -/
def processSpecialTypesList (l : List Json) : List Json :=
  match l with
  | [] => []
  | x :: xs => processSpecialTypes x :: processSpecialTypesList xs

/-- Property-wise walk of `processSpecialTypes` over an object. -/
def processSpecialTypesEntries (l : List (String × Json)) : List (String × Json) :=
  match l with
  | [] => []
  | (k, v) :: rest => (k, processSpecialTypes v) :: processSpecialTypesEntries rest
end

mutual
/-- No sub-node of the value matches any registered transform rule. -/
def matchFree (schema : Json) : Bool :=
  match schema with
  | .arr elems => matchFreeList elems
  | .obj entries =>
    typeTransformers.all (fun t => !t.canTransform (.obj entries)) && matchFreeEntries entries
  | _ => true

/-- `matchFree` over the elements of an array. -/
def matchFreeList (l : List Json) : Bool :=
  match l with
  | [] => true
  | x :: xs => matchFree x && matchFreeList xs

/-- `matchFree` over the property values of an object. -/
def matchFreeEntries (l : List (String × Json)) : Bool :=
  match l with
  | [] => true
  | (_, v) :: rest => matchFree v && matchFreeEntries rest
end

end AtMyApp

namespace AtMyApp

/-! ## Output assembler (`content-processor.ts`) -/

mutual
/-- JS `String(value)` for the values this code base uses as object keys.
Strings pass through; numbers, booleans and `null` render as in JS; arrays
join their rendered elements with commas; plain objects render as
`[object Object]`. -/
def jsString : Json → String
  | .str s => s
  | .num n => toString n
  | .bool b => cond b "true" "false"
  | .null => "null"
  | .arr elems => String.intercalate "," (jsStringList elems)
  | .obj _ => "[object Object]"

/-- `jsString` over the elements of an array. -/
def jsStringList : List Json → List String
  | [] => []
  | x :: xs => jsString x :: jsStringList xs
end

/-- `determineContentType`: re-derive the record's kind from its structure
(and the `collection` tag), independent of the pipeline's `type` field for
the event/icon/image/file markers. -/
def determineContentType (content : Content) : String :=
  if content.type = some "collection" then "collection"
  else if content.struct.getProp "type" = some (.str "event")
      ∨ content.struct.getProp "type" = some (.str "basic_event")
      ∨ content.struct.getPath ["properties", "type", "const"] = some (.str "event")
      ∨ content.struct.getPath ["properties", "type", "const"] = some (.str "basic_event")
      ∨ content.struct.getProp "__amatype" = some (.str "AmaCustomEventDef")
      ∨ content.struct.getProp "__amatype" = some (.str "AmaEventDef") then "event"
  else if content.struct.getProp "__amatype" = some (.str "AmaIconDef") then "icon"
  else if content.struct.getProp "__amatype" = some (.str "AmaImageDef") then "image"
  else if content.struct.getProp "__amatype" = some (.str "AmaFileDef") then "file"
  else "jsonx"

/-- `extractEventConfig`: probe the structure for columns (three fallbacks,
defaulting to an empty list) and an event id (two fallbacks); a truthy event
id yields `{ columns }`, otherwise `null`. -/
def extractEventConfig (content : Content) : Option EventConfig :=
  let columns : Json :=
    if truthyOpt (content.struct.getPath ["properties", "columns", "const"]) then
      (content.struct.getPath ["properties", "columns", "const"]).getD .null
    else if truthyOpt (content.struct.getPath ["properties", "columns", "items", "const"]) then
      (content.struct.getPath ["properties", "columns", "items", "const"]).getD .null
    else if truthyOpt (content.struct.getProp "columns") then
      (content.struct.getProp "columns").getD .null
    else .arr []
  let eventId : Json :=
    if truthyOpt (content.struct.getPath ["properties", "id", "const"]) then
      (content.struct.getPath ["properties", "id", "const"]).getD .null
    else if truthyOpt (content.struct.getProp "id") then
      (content.struct.getProp "id").getD .null
    else .str ""
  if eventId.truthy then some { columns := columns } else none

/-- The event key used by `generateOutput` when an event record is inserted:
`content.path`, overridden by `structure.properties.id.const` or
`structure.id` when truthy (JS object keys are strings, hence `jsString`). -/
def generateOutputEventId (content : Content) : String :=
  if truthyOpt (content.struct.getPath ["properties", "id", "const"]) then
    jsString ((content.struct.getPath ["properties", "id", "const"]).getD .null)
  else if truthyOpt (content.struct.getProp "id") then
    jsString ((content.struct.getProp "id").getD .null)
  else content.path

/-- The body of the events/definitions split loop of `generateOutput`. -/
def generateOutputSplitStep
    (acc : List (String × EventConfig) × List (String × DefinitionEntry))
    (content : Content) : List (String × EventConfig) × List (String × DefinitionEntry) :=
  if determineContentType content = "event" then
    match extractEventConfig content with
    | some eventConfig => (jsObjectSet acc.1 (generateOutputEventId content) eventConfig, acc.2)
    | none => acc
  else
    (acc.1, jsObjectSet acc.2 content.path { type := content.type, struct := content.struct })

/-- `generateOutput`: initialize the global pipeline with built-ins, run
`processDefinitions`, apply `processSpecialTypes` to every surviving
structure, split into events and definitions, build the base document and
run `transformOutput`. The second component is the registry state after the
call (the registrations are the call's only registry mutation). -/
def generateOutput (pipe : DefinitionProcessingPipeline) (contents : List Content)
    (config : Json) (now : String) : OutputDefinition × DefinitionProcessingPipeline :=
  let pipe := initializePipeline pipe
  let processed := (processDefinitions pipe contents config now).processedContents
  let transformedContents :=
    processed.map (fun content => { content with struct := processSpecialTypes content.struct })
  let split := transformedContents.foldl generateOutputSplitStep ([], [])
  let baseOutput : OutputDefinition :=
    { description :=
        match config.getProp "description" with
        | some d => if d.truthy then jsString d else "AMA Definitions"
        | none => "AMA Definitions"
      definitions := split.2
      events := split.1
      args :=
        match config.getProp "args" with
        | some a => if a.truthy then a else .obj []
        | none => .obj [] }
  (transformOutput pipe baseOutput config now, pipe)

end AtMyApp

namespace AtMyApp

/-! ## Per-schema extraction: sequential path (`schema-processor.ts`) and
parallel worker path (worker file processor) -/

/-- Extraction-level content (`FileContent` in the worker; the `contents`
entries pushed by `processAtmyappExport`). At this level `path` is whatever
value the probes produced (`path: eventId` is typed `string` but assigned
from `any`), hence `Json`. -/
structure RawContent where
  path : Json
  struct : Json
deriving DecidableEq

/-- The collaborator outcomes for one definition type of an `ATMYAPP`
export: the schema produced by `generateSchema` (`none` models `null` or a
thrown generator), and the `(id, columns)` literals readable from the type
declaration syntax by the AST fallback (`none` when the declaration is not
an `AmaCustomEventDef<string-literal, tuple-of-string-literals>`). Both
paths consume the same outcomes for the same file set. -/
structure DefEntrySchema where
  schema : Option Json
  astEvent : Option (String × List String)
deriving DecidableEq

/-- The event content record both extractors push:
`{ path: eventId, structure: { type: "event", properties: { id: { const }, columns: { const }, type: { const: "event" } } } }`. -/
def eventRawContent (eventId : Json) (columns : Json) : RawContent :=
  { path := eventId
    struct := .obj [("type", .str "event"),
                    ("properties", .obj [("id", .obj [("const", eventId)]),
                                         ("columns", .obj [("const", columns)]),
                                         ("type", .obj [("const", .str "event")])])] }

/-- The shared event-definition test: `properties.type?.const === "event"`,
or `__is_ATMYAPP_Object.const === true` with both `id` and `columns`. -/
def isEventDefProps (props : Json) : Bool :=
  (props.getPath ["type", "const"] == some (.str "event"))
    || ((props.getPath ["__is_ATMYAPP_Object", "const"] == some (.bool true))
        && truthyOpt (props.getProp "id") && truthyOpt (props.getProp "columns"))

/-- JS `value.length === 0` for the extracted columns value (arrays and
strings have a numeric `length`; an object may carry a `length` property;
for other values `length` is `undefined` and the strict comparison fails). -/
def jsLengthIsZero : Json → Bool
  | .arr elems => elems.isEmpty
  | .str s => s.isEmpty
  | .obj entries => entries.lookup "length" == some (.num 0)
  | _ => false

/-- Sequential event-id probe (`processAtmyappExport`): `id.const` if truthy,
else a single-element `id.enum`, else `id.title` when `id.type === "string"`.
(`null` when every probe fails). -/
def seqExtractEventId (props : Json) : Json :=
  if truthyOpt (props.getPath ["id", "const"]) then
    (props.getPath ["id", "const"]).getD .null
  else
    match props.getPath ["id", "enum"] with
    | some (.arr [x]) => x
    | _ =>
      if props.getPath ["id", "type"] == some (.str "string")
          && truthyOpt (props.getPath ["id", "title"]) then
        (props.getPath ["id", "title"]).getD .null
      else .null

/-- Sequential columns probe (`processAtmyappExport`), five fallbacks in
order: `columns.const`; `columns.items.const`; per-element `const` over an
array of items (dropping falsy ones); `columns.items.enum`; the first
element of `columns.enum` when it is itself an array. Defaults to `[]`. -/
def seqExtractColumns (props : Json) : Json :=
  if truthyOpt (props.getPath ["columns", "const"]) then
    (props.getPath ["columns", "const"]).getD .null
  else if truthyOpt (props.getPath ["columns", "items", "const"]) then
    (props.getPath ["columns", "items", "const"]).getD .null
  else
    match props.getPath ["columns", "items"] with
    | some (.arr items) =>
        .arr (items.filterMap (fun item =>
          match item.getProp "const" with
          | some c => if c.truthy then some c else none
          | none => none))
    | _ =>
      if truthyOpt (props.getPath ["columns", "items", "enum"]) then
        (props.getPath ["columns", "items", "enum"]).getD .null
      else
        match props.getPath ["columns", "enum"] with
        | some (.arr (first :: _)) =>
          match first with
          | .arr elems => .arr elems
          | _ => .arr []
        | _ => .arr []

/-- Shared content-definition probes: path from `path.const` or
`_path.const`; structure from `structure`, `data` or `_data`; `null` when
either is missing. Used verbatim by the sequential extractor and by the
worker's `processContentDefinition`. -/
def extractContentFromProps (props : Json) : Option RawContent :=
  let path : Option Json :=
    if truthyOpt (props.getPath ["path", "const"]) then props.getPath ["path", "const"]
    else if truthyOpt (props.getPath ["_path", "const"]) then props.getPath ["_path", "const"]
    else none
  let struct : Option Json :=
    if truthyOpt (props.getProp "structure") then props.getProp "structure"
    else if truthyOpt (props.getProp "data") then props.getProp "data"
    else if truthyOpt (props.getProp "_data") then props.getProp "_data"
    else none
  match path, struct with
  | some p, some s => some { path := p, struct := s }
  | _, _ => none

/-- Sequential per-schema extraction (the body of the `definitionTypes` loop
of `processAtmyappExport`, given the schema's truthy `properties`). -/
def seqExtractFromProps (props : Json) : Option RawContent :=
  if isEventDefProps props then
    let eventId := seqExtractEventId props
    let columns := seqExtractColumns props
    if !eventId.truthy then none
    else if jsLengthIsZero columns then none
    else some (eventRawContent eventId columns)
  else extractContentFromProps props

/-- The AST fallback of `processAtmyappExport` (via
`extractEventInfoFromAST`): only an `AmaCustomEventDef` declaration with a
string-literal id and at least one string-literal column yields an event. -/
def astFallback (entry : DefEntrySchema) : Option RawContent :=
  match entry.astEvent with
  | some (eventId, columns) =>
    if eventId ≠ "" ∧ columns ≠ [] then
      some (eventRawContent (.str eventId) (.arr (columns.map Json.str)))
    else none
  | none => none

/-- One definition type processed by the sequential path: no schema ⇒ skip;
schema without truthy `properties` ⇒ AST fallback; else the shared
event/content extraction with the sequential probes. -/
def seqProcessEntry (entry : DefEntrySchema) : Option RawContent :=
  match entry.schema with
  | none => none
  | some schema =>
    match schema.getProp "properties" with
    | some props => if props.truthy then seqExtractFromProps props else astFallback entry
    | none => astFallback entry

/-- Worker event-id probe (`processEventDefinition`): only `id.const`
(`null` otherwise). -/
def workerExtractEventId (props : Json) : Json :=
  if truthyOpt (props.getPath ["id", "const"]) then
    (props.getPath ["id", "const"]).getD .null
  else .null

/-- Worker columns probe (`processEventDefinition`): only the first three of
the sequential fallbacks, defaulting to `[]`. -/
def workerExtractColumns (props : Json) : Json :=
  if truthyOpt (props.getPath ["columns", "const"]) then
    (props.getPath ["columns", "const"]).getD .null
  else if truthyOpt (props.getPath ["columns", "items", "const"]) then
    (props.getPath ["columns", "items", "const"]).getD .null
  else
    match props.getPath ["columns", "items"] with
    | some (.arr items) =>
        .arr (items.filterMap (fun item =>
          match item.getProp "const" with
          | some c => if c.truthy then some c else none
          | none => none))
    | _ => .arr []

/-- Worker event extraction (`processEventDefinition`): `null` unless the id
is truthy and the columns are non-empty. -/
def processEventDefinition (props : Json) : Option RawContent :=
  let eventId := workerExtractEventId props
  let columns := workerExtractColumns props
  if !eventId.truthy then none
  else if jsLengthIsZero columns then none
  else some (eventRawContent eventId columns)

/-- Worker content extraction (`processContentDefinition`): the shared
path/structure probes. -/
def processContentDefinition (props : Json) : Option RawContent :=
  extractContentFromProps props

/-- One definition type processed by the worker
(`processAtmyappExportOptimized`): schemas without truthy `properties` are
skipped (no AST fallback in the worker). -/
def workerProcessEntry (entry : DefEntrySchema) : Option RawContent :=
  match entry.schema with
  | none => none
  | some schema =>
    match schema.getProp "properties" with
    | some props =>
      if props.truthy then
        if isEventDefProps props then processEventDefinition props
        else processContentDefinition props
      else none
    | none => none

/-- The common result shape of both execution paths. -/
structure ProcessingResult where
  contents : List RawContent
  errors : List String
  successCount : Nat
  failureCount : Nat
deriving DecidableEq

/-- One file of the sequential `processFiles` loop: the export's extracted
contents are appended and `successCount` grows by their number. -/
def seqFileStep (acc : ProcessingResult) (file : List DefEntrySchema) : ProcessingResult :=
  let fileContents := file.filterMap seqProcessEntry
  { acc with
      contents := acc.contents ++ fileContents
      successCount := acc.successCount + fileContents.length }

/-- Sequential `processFiles` over the per-file collaborator outcomes (one
`ATMYAPP` export per file); the pure extraction model raises no per-export
exception, so `errors`/`failureCount` stay empty. -/
def processFiles (files : List (List DefEntrySchema)) : ProcessingResult :=
  files.foldl seqFileStep
    { contents := [], errors := [], successCount := 0, failureCount := 0 }

/-- One task of the parallel aggregation loop: a successful worker result
contributes its contents and their count. -/
def workerFileStep (acc : ProcessingResult) (file : List DefEntrySchema) : ProcessingResult :=
  let workerContents := file.filterMap workerProcessEntry
  { acc with
      contents := acc.contents ++ workerContents
      successCount := acc.successCount + workerContents.length }

/-- Parallel `processFilesParallel` over the same per-file outcomes: one
task per file, results reassembled in original task order, each successful
task contributing its contents and their count; after aggregation the MDX
post-pass appends `mdxConfigs` and counts them as successes. -/
def processFilesParallel (files : List (List DefEntrySchema))
    (mdxConfigs : List RawContent) : ProcessingResult :=
  let aggregated : ProcessingResult := files.foldl workerFileStep
    { contents := [], errors := [], successCount := 0, failureCount := 0 }
  { aggregated with
      contents := aggregated.contents ++ mdxConfigs
      successCount := aggregated.successCount + mdxConfigs.length }

/-- `WorkerPool` field `maxWorkers`:
`maxWorkers || Math.min(cpus().length, 8)` — a passed value of `0` is falsy
and falls back to the capped default. -/
def workerPoolMaxWorkers (maxWorkers : Option Nat) (cpuCount : Nat) : Nat :=
  match maxWorkers with
  | some n => if n = 0 then min cpuCount 8 else n
  | none => min cpuCount 8

/-- `WorkerPool.processFiles`: `workersToCreate = Math.min(this.maxWorkers, tasks.length)`. -/
def workersToCreate (maxWorkers : Option Nat) (cpuCount : Nat) (taskCount : Nat) : Nat :=
  min (workerPoolMaxWorkers maxWorkers cpuCount) taskCount

end AtMyApp

namespace AtMyApp

/-! ## Collection converter (`collection-transformer.ts`) -/

/-- `RESERVED_FIELD_NAMES`. -/
def RESERVED_FIELD_NAMES : List String := ["id", "created_at"]

/-- `PRIMITIVE_TYPES`. -/
def PRIMITIVE_TYPES : List String := ["string", "number", "boolean", "null"]

/-- `SUPPORTED_TYPES`. -/
def SUPPORTED_TYPES : List String := PRIMITIVE_TYPES ++ ["array", "object"]

/-- JS `typeof` (note `typeof null === "object"`). -/
def jsTypeof : Json → String
  | .null => "object"
  | .bool _ => "boolean"
  | .num _ => "number"
  | .str _ => "string"
  | .arr _ => "object"
  | .obj _ => "object"

/-- Nullish-coalescing property read `o[key] ?? ...`: a present `null`
falls through, any other present value (falsy included) is taken. -/
def nullishGet (o : Json) (key : String) : Option Json :=
  match o.getProp key with
  | some .null => none
  | some v => some v
  | none => none

/-- Result of `detectAmaAssetField`: the asset mapping plus the optional
image options (kept only when truthy, the `...(imageOptions ? ... : {})`
spread combined with the later `if (amaAsset.imageOptions)` check). -/
structure AssetField where
  format : String
  semanticType : Option String
  imageOptions : Option Json

/-- `detectAmaAssetField`: an `__amatype` constant under
`properties.structure.properties` that maps through `AMA_ASSET_TYPE_MAP`,
with image options read from `__config.properties.imageOptions`
(`const ?? default`). -/
def detectAmaAssetField (schema : Json) : Option AssetField :=
  match schema.getPath ["properties", "structure", "properties", "__amatype", "const"] with
  | some (.str amaType) =>
    let mapping : Option (String × Option String) :=
      if amaType = "AmaImage" then some ("image", none)
      else if amaType = "AmaFile" then some ("file", none)
      else if amaType = "AmaIcon" then some ("image", some "image")
      else none
    match mapping with
    | none => none
    | some (format, semanticType) =>
      let imageOptions : Option Json :=
        match schema.getPath ["properties", "structure", "properties", "__config", "properties"] with
        | some configSchema =>
          if configSchema.truthy ∧ truthyOpt (configSchema.getProp "imageOptions") then
            let optionsSchema := (configSchema.getProp "imageOptions").getD .null
            match (nullishGet optionsSchema "const").orElse (fun _ => nullishGet optionsSchema "default") with
            | some v => if v.truthy then some v else none
            | none => none
          else none
        | none => none
      some { format := format, semanticType := semanticType, imageOptions := imageOptions }
  | _ => none

/-- `detectAmaMdxField`: `properties.__amatype.const === "AmaMdxDef"` with a
string `mdxConfig` constant, or the first string of its `enum`. -/
def detectAmaMdxField (schema : Json) : Option String :=
  if schema.getPath ["properties", "__amatype", "const"] = some (.str "AmaMdxDef") then
    match schema.getPath ["properties", "mdxConfig", "const"] with
    | some (.str s) => some s
    | _ =>
      match schema.getPath ["properties", "mdxConfig", "enum"] with
      | some (.arr (first :: _)) =>
        match first with
        | .str s => some s
        | _ => none
      | _ => none
  else none

/-- `ensureDescription`: a non-blank string is trimmed, anything else gets
the fallback. -/
def ensureDescription (description : Option Json) (fallback : String) : String :=
  match description with
  | some (.str s) => if (jsTrim s).length > 0 then jsTrim s else fallback
  | _ => fallback

/-- `normalizeType`: a string passes through; an array drops `"null"`
entries and yields a single survivor, or `"null"` if only `"null"` was
present; anything else is `null`. -/
def normalizeType (type : Json) : Json :=
  match type with
  | .str s => .str s
  | .arr elems =>
    let withoutNull := elems.filter (fun v => v != .str "null")
    match withoutNull with
    | [only] => only
    | [] => if elems.contains (.str "null") then .str "null" else .null
    | _ => .null
  | _ => .null

/-- `inferType`: `normalizeType(schema.type)`, else a homogeneous non-empty
`enum`'s element type, else the type of a primitive `const`. -/
def inferType (schema : Json) : Json :=
  let t1 := normalizeType ((schema.getProp "type").getD .null)
  let t2 :=
    if !t1.truthy then
      match schema.getProp "enum" with
      | some (.arr (e :: es)) =>
        let enumTypes := ((e :: es).map jsTypeof).dedup
        if enumTypes.length = 1 then
          if enumTypes.contains "string" then .str "string"
          else if enumTypes.contains "number" then .str "number"
          else if enumTypes.contains "boolean" then .str "boolean"
          else .null
        else t1
      | _ => t1
    else t1
  if !t2.truthy then
    match schema.getProp "const" with
    | some (.str _) => .str "string"
    | some (.num _) => .str "number"
    | some (.bool _) => .str "boolean"
    | _ => t2
  else t2

/-- `copyProperties`: copy the listed keys that are present on the source,
in list order. -/
def copyProps (schema : Json) (keys : List String) : List (String × Json) :=
  keys.filterMap (fun key =>
    match schema.getProp key with
    | some v => some (key, v)
    | none => none)

/-- The copy-through keys of the primitive branch of `convertField`. -/
def primitiveCopyKeys : List String :=
  ["enum", "default", "format", "semanticType", "storeInBlob", "imageOptions",
   "maxLength", "minLength", "pattern", "minimum", "maximum", "multipleOf"]

/-- The guard `!schema || typeof schema !== "object"`: only arrays and
non-null objects pass. -/
def jsIsObject : Json → Bool
  | .arr _ => true
  | .obj _ => true
  | _ => false

mutual
/-- `convertField` (result plus the error messages logged): asset fields,
MDX fields, then primitive / array / object conversion by inferred type;
`none` is an all-or-nothing failure. -/
def convertField (schema : Json) (fieldName : String) (breadcrumb : String) :
    Option Json × List String :=
  if jsIsObject schema then
    match detectAmaAssetField schema with
    | some asset =>
      let description := ensureDescription (schema.getProp "description")
        ("Generated description for " ++ breadcrumb)
      (some (.obj ([("type", .str "string"), ("description", .str description),
                    ("format", .str asset.format)]
        ++ (match asset.semanticType with
            | some st => [("semanticType", .str st)]
            | none => [])
        ++ (match asset.imageOptions with
            | some io => [("imageOptions", io)]
            | none => []))), [])
    | none =>
      match detectAmaMdxField schema with
      | some mdxConfig =>
        let description := ensureDescription (schema.getProp "description")
          ("Generated description for " ++ breadcrumb)
        (some (.obj [("type", .str "string"), ("description", .str description),
                     ("format", .str "mdx"), ("storeInBlob", .bool true),
                     ("__amatype", .str "AmaMdxDef"), ("mdxConfig", .str mdxConfig)]), [])
      | none =>
        let type0 := inferType schema
        if !type0.truthy then
          (none, ["Collection conversion failed for field \"" ++ breadcrumb
            ++ "\": could not determine field type."])
        else
          let type1 := if type0 = .str "integer" then .str "number" else type0
          match type1 with
          | .str t =>
            if ¬ SUPPORTED_TYPES.contains t then
              (none, ["Collection conversion failed for field \"" ++ breadcrumb
                ++ "\": unsupported field type \"" ++ t ++ "\"."])
            else
              let description := ensureDescription (schema.getProp "description")
                ("Generated description for " ++ breadcrumb)
              if PRIMITIVE_TYPES.contains t then
                (some (.obj ([("type", .str t), ("description", .str description)]
                  ++ copyProps schema primitiveCopyKeys)), [])
              else if t = "array" then
                match convertArrayItems schema fieldName breadcrumb with
                | (none, logs) => (none, logs)
                | (some items, logs) =>
                  (some (.obj ([("type", .str t), ("description", .str description),
                                ("items", items)]
                    ++ copyProps schema ["minItems", "maxItems", "uniqueItems", "default"])), logs)
              else
                match convertObjectProperties schema breadcrumb with
                | (none, logs) => (none, logs)
                | (some (props, required), logs) =>
                  (some (.obj ([("type", .str t), ("description", .str description)]
                    ++ (if props ≠ [] then [("properties", .obj props)] else [])
                    ++ (match required with
                        | some req => if req ≠ [] then [("required", .arr (req.map Json.str))] else []
                        | none => [])
                    ++ copyProps schema ["default"])), logs)
          | _ =>
            (none, ["Collection conversion failed for field \"" ++ breadcrumb
              ++ "\": unsupported field type \"" ++ jsString type1 ++ "\"."])
  else
    (none, ["Collection conversion failed for field \"" ++ breadcrumb
      ++ "\": schema is not an object."])
termination_by (sizeOf schema, 2)
decreasing_by
  all_goals simp_wf
  all_goals exact Prod.Lex.right _ (by omega)

/-- `convertArrayItems`: missing (falsy) `items` fails, else the items
schema is converted with a `[]`-suffixed breadcrumb. -/
def convertArrayItems (schema : Json) (fieldName : String) (breadcrumb : String) :
    Option Json × List String :=
  match hi : schema.getProp "items" with
  | some items =>
    if items.truthy then convertField items fieldName (breadcrumb ++ "[]")
    else
      (none, ["Collection conversion failed for field \"" ++ breadcrumb
        ++ "\": array items schema is missing."])
  | none =>
    (none, ["Collection conversion failed for field \"" ++ breadcrumb
      ++ "\": array items schema is missing."])
termination_by (sizeOf schema, 1)
decreasing_by
  simp_wf
  have := sizeOf_getProp_lt hi
  exact Prod.Lex.left _ _ (by omega)

/-- `convertObjectProperties`: convert every child property (string keys of
an object, index keys of an array), failing wholesale if any child fails;
`required` is kept when `schema.required` is an array (filtered to
strings). -/
def convertObjectProperties (schema : Json) (breadcrumb : String) :
    Option (List (String × Json) × Option (List String)) × List String :=
  match hp : schema.getProp "properties" with
  | some rawProperties =>
    match rawProperties with
    | .obj entries =>
      (match convertPropsEntries entries breadcrumb with
       | (none, logs) => (none, logs)
       | (some converted, logs) =>
         (some (converted,
           match schema.getProp "required" with
           | some (.arr elems) => some (elems.filterMap (fun e =>
               match e with
               | .str s => some s
               | _ => none))
           | _ => none), logs))
    | .arr elems =>
      (match convertPropsElems 0 elems breadcrumb with
       | (none, logs) => (none, logs)
       | (some converted, logs) =>
         (some (converted,
           match schema.getProp "required" with
           | some (.arr relems) => some (relems.filterMap (fun e =>
               match e with
               | .str s => some s
               | _ => none))
           | _ => none), logs))
    | _ => (some ([], none), [])
  | none => (some ([], none), [])
termination_by (sizeOf schema, 1)
decreasing_by
  all_goals simp_wf
  all_goals
    have := sizeOf_getProp_lt hp
    simp at this
    exact Prod.Lex.left _ _ (by omega)

/-- The `Object.entries` loop of `convertObjectProperties` over an object's
properties. -/
def convertPropsEntries (entries : List (String × Json)) (breadcrumb : String) :
    Option (List (String × Json)) × List String :=
  match entries with
  | [] => (some [], [])
  | (childName, childSchema) :: rest =>
    match convertField childSchema childName (breadcrumb ++ "." ++ childName) with
    | (none, logs) =>
      (none, logs ++ ["Collection conversion failed for field \"" ++ breadcrumb ++ "."
        ++ childName ++ "\": unsupported schema."])
    | (some converted, logs) =>
      match convertPropsEntries rest breadcrumb with
      | (none, logs2) => (none, logs ++ logs2)
      | (some convertedRest, logs2) => (some ((childName, converted) :: convertedRest), logs ++ logs2)
termination_by (sizeOf entries, 0)
decreasing_by
  all_goals simp_wf
  all_goals exact Prod.Lex.left _ _ (by omega)

/-- The `Object.entries` loop of `convertObjectProperties` over an array's
index entries. -/
def convertPropsElems (index : Nat) (elems : List Json) (breadcrumb : String) :
    Option (List (String × Json)) × List String :=
  match elems with
  | [] => (some [], [])
  | childSchema :: rest =>
    let childName := toString index
    match convertField childSchema childName (breadcrumb ++ "." ++ childName) with
    | (none, logs) =>
      (none, logs ++ ["Collection conversion failed for field \"" ++ breadcrumb ++ "."
        ++ childName ++ "\": unsupported schema."])
    | (some converted, logs) =>
      match convertPropsElems (index + 1) rest breadcrumb with
      | (none, logs2) => (none, logs ++ logs2)
      | (some convertedRest, logs2) => (some ((childName, converted) :: convertedRest), logs ++ logs2)
termination_by (sizeOf elems, 0)
decreasing_by
  all_goals simp_wf
  all_goals exact Prod.Lex.left _ _ (by omega)
end

/-- `extractIndexes`: a string array from
`__config.properties.indexedColumns` (`const ?? default`), capped at 10. -/
def extractIndexes (configSchema : Option Json) : Option (List String) :=
  let indexedColumnsSchema : Option Json :=
    match configSchema with
    | some cs => cs.getPath ["properties", "indexedColumns"]
    | none => none
  match indexedColumnsSchema with
  | some ics =>
    if ics.truthy then
      match (nullishGet ics "const").orElse (fun _ => nullishGet ics "default") with
      | some (.arr elems) =>
        let indexes := elems.filterMap (fun e =>
          match e with
          | .str s => some s
          | _ => none)
        if indexes = [] then none else some (indexes.take 10)
      | _ => none
    else none
  | none => none

/-- `isAmaCollectionStructure`: a truthy `properties.__rowType`. -/
def isAmaCollectionStructure (structure' : Json) : Bool :=
  truthyOpt (structure'.getPath ["properties", "__rowType"])

/-- The row-field loop of `convertAmaCollectionStructure` over an object's
field entries: a reserved field name fails the whole conversion, as does any
failing field conversion. -/
def convertRowEntries (path : String) : List (String × Json) → Option (List (String × Json)) × List String
  | [] => (some [], [])
  | (fieldName, fieldSchema) :: rest =>
    if RESERVED_FIELD_NAMES.contains fieldName then
      (none, ["Collection conversion failed for \"" ++ path ++ "\": field \""
        ++ fieldName ++ "\" is reserved."])
    else
      match convertField fieldSchema fieldName (path ++ "." ++ fieldName) with
      | (none, logs) => (none, logs)
      | (some converted, logs) =>
        match convertRowEntries path rest with
        | (none, logs2) => (none, logs ++ logs2)
        | (some convertedRest, logs2) =>
          (some ((fieldName, converted) :: convertedRest), logs ++ logs2)

/-- The row-field loop over an array's index entries (index keys are never
reserved names, but the loop shape is kept). -/
def convertRowElems (path : String) (index : Nat) : List Json → Option (List (String × Json)) × List String
  | [] => (some [], [])
  | fieldSchema :: rest =>
    let fieldName := toString index
    if RESERVED_FIELD_NAMES.contains fieldName then
      (none, ["Collection conversion failed for \"" ++ path ++ "\": field \""
        ++ fieldName ++ "\" is reserved."])
    else
      match convertField fieldSchema fieldName (path ++ "." ++ fieldName) with
      | (none, logs) => (none, logs)
      | (some converted, logs) =>
        match convertRowElems path (index + 1) rest with
        | (none, logs2) => (none, logs ++ logs2)
        | (some convertedRest, logs2) =>
          (some ((fieldName, converted) :: convertedRest), logs ++ logs2)

/-- `convertAmaCollectionStructure` (result plus logged errors). -/
def convertAmaCollectionStructure (path : String) (structure' : Json) :
    Option Json × List String :=
  if ¬ isAmaCollectionStructure structure' then (none, [])
  else
    let rowTypeSchema := (structure'.getPath ["properties", "__rowType"]).getD .null
    match rowTypeSchema with
    | .obj _ | .arr _ =>
      let rowTypeType := inferType rowTypeSchema
      if rowTypeType ≠ .str "object" then
        (none, ["Collection conversion failed for \"" ++ path ++ "\": __rowType is not an object."])
      else
        match rowTypeSchema.getProp "properties" with
        | some rawFields =>
          match rawFields with
          | .obj fieldEntries =>
            (match convertRowEntries path fieldEntries with
             | (none, logs) => (none, logs)
             | (some properties, logs) =>
               (some (collectionOutput path structure' rowTypeSchema properties), logs))
          | .arr fieldElems =>
            (match convertRowElems path 0 fieldElems with
             | (none, logs) => (none, logs)
             | (some properties, logs) =>
               (some (collectionOutput path structure' rowTypeSchema properties), logs))
          | _ =>
            (none, ["Collection conversion failed for \"" ++ path ++ "\": __rowType has no properties."])
        | none =>
          (none, ["Collection conversion failed for \"" ++ path ++ "\": __rowType has no properties."])
    | _ =>
      (none, ["Collection conversion failed for \"" ++ path ++ "\": missing __rowType definition."])
where
  /-- The successful collection document: description, converted field map,
  then `required` and `indexes` when non-empty. -/
  collectionOutput (path : String) (structure' rowTypeSchema : Json)
      (properties : List (String × Json)) : Json :=
    let required : List String :=
      match rowTypeSchema.getProp "required" with
      | some (.arr elems) => elems.filterMap (fun e =>
          match e with
          | .str s => some s
          | _ => none)
      | _ => []
    let description := ensureDescription (structure'.getProp "description")
      ("Generated collection for " ++ path)
    let indexes := extractIndexes (structure'.getPath ["properties", "__config"])
    .obj ([("description", .str description), ("properties", .obj properties)]
      ++ (if required ≠ [] then [("required", .arr (required.map Json.str))] else [])
      ++ (match indexes with
          | some idx => if idx ≠ [] then [("indexes", .arr (idx.map Json.str))] else []
          | none => []))

end AtMyApp

namespace AtMyApp

/-! ## Pipeline decomposition lemmas -/

theorem processStep_eq (pipe : DefinitionProcessingPipeline) (contents : List Content)
    (config : Json) (now : String) (acc : List Content × List ValidationResult)
    (entry : Nat × Content) :
    processStep pipe contents config now acc entry =
      (acc.1 ++ (processRecord pipe contents config now entry).toList,
       acc.2 ++ [validateContent pipe.validators entry.2 (processingContextAt contents entry.1 config now)]) := by
  unfold processStep processRecord
  cases hv : (validateContent pipe.validators entry.2 (processingContextAt contents entry.1 config now)).isValid
  · simp [hv]
  · cases hr : runProcessors pipe.processors entry.2 (processingContextAt contents entry.1 config now) <;>
      simp [hv, hr]

theorem processLoop_eq (pipe : DefinitionProcessingPipeline) (contents : List Content)
    (config : Json) (now : String) (l : List (Nat × Content))
    (acc : List Content × List ValidationResult) :
    l.foldl (processStep pipe contents config now) acc =
      (acc.1 ++ l.filterMap (processRecord pipe contents config now),
       acc.2 ++ l.map (fun e => validateContent pipe.validators e.2 (processingContextAt contents e.1 config now))) := by
  induction l generalizing acc with
  | nil => simp
  | cons e t ih =>
    rw [List.foldl_cons, processStep_eq, ih]
    cases hr : processRecord pipe contents config now e <;>
      simp [hr, List.filterMap_cons]

theorem processDefinitions_eq (pipe : DefinitionProcessingPipeline) (contents : List Content)
    (config : Json) (now : String) :
    processDefinitions pipe contents config now =
      { processedContents := contents.enum.filterMap (processRecord pipe contents config now)
        validationResults := contents.enum.map (fun e =>
          validateContent pipe.validators e.2 (processingContextAt contents e.1 config now)) } := by
  unfold processDefinitions
  rw [processLoop_eq]
  simp

theorem validateFold_isValid_false (c : Content) (ctx : ProcessingContext)
    (vs : List ValidationRule) (acc : ValidationResult) (h : acc.isValid = false) :
    (vs.foldl (validateStep c ctx) acc).isValid = false := by
  induction vs generalizing acc with
  | nil => exact h
  | cons v rest ih =>
    rw [List.foldl_cons]
    apply ih
    unfold validateStep
    cases hv : v.validate c ctx with
    | ok vr => simp [h]
    | error e => simp

theorem validateFold_errors_mem (c : Content) (ctx : ProcessingContext)
    (vs : List ValidationRule) (acc : ValidationResult) (msg : String)
    (h : msg ∈ acc.errors) :
    msg ∈ (vs.foldl (validateStep c ctx) acc).errors := by
  induction vs generalizing acc with
  | nil => exact h
  | cons v rest ih =>
    rw [List.foldl_cons]
    apply ih
    unfold validateStep
    cases hv : v.validate c ctx with
    | ok vr => simp [h]
    | error e => simp [h]

theorem validateFold_of_error {vs : List ValidationRule} {c : Content}
    {ctx : ProcessingContext} {v : ValidationRule} {e : String}
    (hv : v ∈ vs) (he : v.validate c ctx = .error e) :
    ∀ acc : ValidationResult,
      (vs.foldl (validateStep c ctx) acc).isValid = false ∧
        ("Validator " ++ v.name ++ " failed: " ++ e) ∈ (vs.foldl (validateStep c ctx) acc).errors := by
  induction vs with
  | nil => cases hv
  | cons w rest ih =>
    intro acc
    rcases List.mem_cons.mp hv with heq | hmem
    · subst heq
      rw [List.foldl_cons]
      constructor
      · apply validateFold_isValid_false
        unfold validateStep
        rw [he]
      · apply validateFold_errors_mem
        unfold validateStep
        rw [he]
        simp
    · rw [List.foldl_cons]
      exact ih hmem _

theorem validateFold_of_invalid {vs : List ValidationRule} {c : Content}
    {ctx : ProcessingContext} {v : ValidationRule} {vr : ValidationResult} {msg : String}
    (hv : v ∈ vs) (he : v.validate c ctx = .ok vr) (hval : vr.isValid = false)
    (hmsg : msg ∈ vr.errors) :
    ∀ acc : ValidationResult,
      (vs.foldl (validateStep c ctx) acc).isValid = false ∧
        msg ∈ (vs.foldl (validateStep c ctx) acc).errors := by
  induction vs with
  | nil => cases hv
  | cons w rest ih =>
    intro acc
    rcases List.mem_cons.mp hv with heq | hmem
    · subst heq
      rw [List.foldl_cons]
      constructor
      · apply validateFold_isValid_false
        unfold validateStep
        rw [he]
        simp [hval]
      · apply validateFold_errors_mem
        unfold validateStep
        rw [he]
        simp [hmsg]
    · rw [List.foldl_cons]
      exact ih hmem _

theorem validateContent_of_error {vs : List ValidationRule} {c : Content}
    {ctx : ProcessingContext} {v : ValidationRule} {e : String}
    (hv : v ∈ vs) (he : v.validate c ctx = .error e) :
    (validateContent vs c ctx).isValid = false ∧
      ("Validator " ++ v.name ++ " failed: " ++ e) ∈ (validateContent vs c ctx).errors :=
  validateFold_of_error hv he _

theorem validateContent_of_invalid {vs : List ValidationRule} {c : Content}
    {ctx : ProcessingContext} {v : ValidationRule} {vr : ValidationResult} {msg : String}
    (hv : v ∈ vs) (he : v.validate c ctx = .ok vr) (hval : vr.isValid = false)
    (hmsg : msg ∈ vr.errors) :
    (validateContent vs c ctx).isValid = false ∧ msg ∈ (validateContent vs c ctx).errors :=
  validateFold_of_invalid hv he hval hmsg _

theorem processRecord_eq_none_of_invalid {pipe : DefinitionProcessingPipeline}
    {contents : List Content} {config : Json} {now : String} {entry : Nat × Content}
    (h : (validateContent pipe.validators entry.2
      (processingContextAt contents entry.1 config now)).isValid = false) :
    processRecord pipe contents config now entry = none := by
  unfold processRecord
  simp [h]

theorem runProcessors_append_none {pre : List DefinitionProcessor}
    {p : DefinitionProcessor} {post : List DefinitionProcessor} {c c' : Content}
    {ctx : ProcessingContext} {e : String}
    (hpre : runProcessors pre c ctx = some c') (hp : p.process c' ctx = .error e) :
    runProcessors (pre ++ p :: post) c ctx = none := by
  induction pre generalizing c with
  | nil =>
    rw [runProcessors] at hpre
    injection hpre with hpre
    subst hpre
    rw [List.nil_append, runProcessors, hp]
  | cons q rest ih =>
    rw [runProcessors] at hpre
    rw [List.cons_append, runProcessors]
    cases hq : q.process c ctx
    case ok o =>
      rw [hq] at hpre
      cases o with
      | some next => exact ih hpre
      | none => cases hpre
    case error a => rfl

theorem filterMap_eq_map_of_some {α β : Type} {l : List α} {g : α → Option β} {f : α → β}
    (h : ∀ a ∈ l, g a = some (f a)) : l.filterMap g = l.map f := by
  induction l with
  | nil => rfl
  | cons a t ih =>
    rw [List.filterMap_cons, h a (List.mem_cons_self a t), List.map_cons,
      ih (fun b hb => h b (List.mem_cons_of_mem a hb))]

theorem filterMap_eq_filter_filterMap {α β : Type} {l : List α} {g : α → Option β}
    {pred : α → Bool} (h : ∀ a ∈ l, pred a = false → g a = none) :
    l.filterMap g = (l.filter pred).filterMap g := by
  induction l with
  | nil => rfl
  | cons a t ih =>
    have ht := ih (fun b hb => h b (List.mem_cons_of_mem a hb))
    rw [List.filter_cons]
    cases hp : pred a
    · rw [if_neg (by simp [hp]), List.filterMap_cons, h a (List.mem_cons_self a t) hp]
      simpa using ht
    · rw [if_pos (by simp [hp]), List.filterMap_cons, List.filterMap_cons, ht]

theorem mem_enum_fact {α : Type} {l : List α} {e : ℕ × α} (he : e ∈ l.enum) :
    ∃ hlt : e.1 < l.length, l[e.1] = e.2 := by
  have := List.mem_enum_iff_getElem?.mp he
  have hlt : e.1 < l.length := by
    by_contra hge
    rw [List.getElem?_eq_none (by omega)] at this
    cases this
  exact ⟨hlt, by rw [List.getElem?_eq_getElem hlt] at this; injection this⟩

end AtMyApp

namespace AtMyApp

/-! ## Claim theorems: pipeline (C2, C3, C4, C5) -/

/-- C5: for every input list whose records all pass validation and survive
every processor (record `i` becoming `f i`), `processDefinitions` returns
`processedContents` containing exactly those records in input order. -/
theorem c5_order_preservation
    (pipe : DefinitionProcessingPipeline) (contents : List Content) (config : Json)
    (now : String) (f : Nat → Content)
    (h : ∀ i (hi : i < contents.length),
      processRecord pipe contents config now (i, contents[i]) = some (f i)) :
    (processDefinitions pipe contents config now).processedContents
      = (List.range contents.length).map f := by
  rw [processDefinitions_eq]
  show contents.enum.filterMap (processRecord pipe contents config now)
    = (List.range contents.length).map f
  rw [filterMap_eq_map_of_some (f := fun e => f e.1)]
  · rw [← List.enum_map_fst contents, List.map_map]
    rfl
  · intro e he
    obtain ⟨hlt, hget⟩ := mem_enum_fact he
    have := h e.1 hlt
    rw [hget] at this
    calc processRecord pipe contents config now e
        = processRecord pipe contents config now (e.1, e.2) := by rw [Prod.mk.eta]
      _ = some (f e.1) := this

def c5pipe : DefinitionProcessingPipeline := initializePipeline {}

def c5contents : List Content :=
  [{ path := "a.json", struct := .null }, { path := "b.json", struct := .null }]

def c5f : Nat → Content := fun i =>
  [{ path := "a.json", struct := .null, type := some "jsonx" },
   { path := "b.json", struct := .null, type := some "jsonx" }].getD i
    { path := "", struct := .null }

/-- Witness for C5 at a concrete two-record input under the built-in
registry. -/
theorem c5_order_preservation_witness :
    (∀ i (hi : i < c5contents.length),
      processRecord c5pipe c5contents .null "t" (i, c5contents[i]) = some (c5f i))
    ∧ (processDefinitions c5pipe c5contents .null "t").processedContents
        = (List.range c5contents.length).map c5f :=
  ⟨by decide, c5_order_preservation c5pipe c5contents .null "t" c5f (by decide)⟩

end AtMyApp

namespace AtMyApp

/-- C3: `processDefinitions` handles every record independently and totally
(conjunct 1: the per-record decomposition of `processedContents` and
`validationResults`, so no record's failure affects another); a validator
that throws on the record at index `i` makes that record invalid with an
error naming the validator and the thrown message, and the record is
dropped (conjunct 2); a processor that throws while the record's chain
reaches it terminates the chain and the record is dropped (conjunct 3). -/
theorem c3_validator_processor_isolation (pipe : DefinitionProcessingPipeline)
    (contents : List Content) (config : Json) (now : String) :
    ((processDefinitions pipe contents config now).processedContents
        = contents.enum.filterMap (processRecord pipe contents config now)
      ∧ (processDefinitions pipe contents config now).validationResults
        = contents.enum.map (fun e =>
            validateContent pipe.validators e.2 (processingContextAt contents e.1 config now)))
    ∧ (∀ i (hi : i < contents.length) (v : ValidationRule) (e : String),
        v ∈ pipe.validators →
        v.validate contents[i] (processingContextAt contents i config now) = .error e →
        (validateContent pipe.validators contents[i]
          (processingContextAt contents i config now)).isValid = false
        ∧ ("Validator " ++ v.name ++ " failed: " ++ e)
            ∈ (validateContent pipe.validators contents[i]
                (processingContextAt contents i config now)).errors
        ∧ processRecord pipe contents config now (i, contents[i]) = none)
    ∧ (∀ i (hi : i < contents.length) (pre : List DefinitionProcessor)
        (p : DefinitionProcessor) (post : List DefinitionProcessor) (c' : Content)
        (e : String),
        pipe.processors = pre ++ p :: post →
        runProcessors pre contents[i] (processingContextAt contents i config now) = some c' →
        p.process c' (processingContextAt contents i config now) = .error e →
        processRecord pipe contents config now (i, contents[i]) = none) := by
  refine ⟨⟨?_, ?_⟩, ?_, ?_⟩
  · rw [processDefinitions_eq]
  · rw [processDefinitions_eq]
  · intro i hi v e hv he
    obtain ⟨h1, h2⟩ := validateContent_of_error hv he
    exact ⟨h1, h2, processRecord_eq_none_of_invalid h1⟩
  · intro i hi pre p post c' e hsplit hpre hp
    unfold processRecord
    cases hval : (validateContent pipe.validators contents[i]
        (processingContextAt contents i config now)).isValid
    · simp [hval]
    · simp only [hval, if_true]
      rw [hsplit]
      exact runProcessors_append_none hpre hp

def c3ThrowingValidator : ValidationRule where
  name := "boom-validator"
  validate := fun content _context =>
    if content.path = "bad" then .error "boom"
    else .ok { isValid := true, errors := [], warnings := [] }

def c3ThrowingProcessor : DefinitionProcessor where
  name := "boom-processor"
  process := fun content _context =>
    if content.path = "good" then .error "pow" else .ok (some content)

def c3pipe : DefinitionProcessingPipeline :=
  { processors := [c3ThrowingProcessor], outputTransformers := [], validators := [c3ThrowingValidator] }

def c3bad : Content := { path := "bad", struct := .null }

def c3good : Content := { path := "good", struct := .null }

def c3contents : List Content := [c3bad, c3good]

/-- Witness for C3: one record hit by a throwing validator, one by a
throwing processor; both dropped, nothing propagates. -/
theorem c3_validator_processor_isolation_witness :
    (validateContent c3pipe.validators c3bad
      (processingContextAt c3contents 0 .null "t")).isValid = false
    ∧ ("Validator " ++ "boom-validator" ++ " failed: " ++ "boom")
        ∈ (validateContent c3pipe.validators c3bad
            (processingContextAt c3contents 0 .null "t")).errors
    ∧ processRecord c3pipe c3contents .null "t" (0, c3bad) = none
    ∧ processRecord c3pipe c3contents .null "t" (1, c3good) = none
    ∧ (processDefinitions c3pipe c3contents .null "t").processedContents = [] := by
  have h := c3_validator_processor_isolation c3pipe c3contents .null "t"
  have hv := h.2.1 0 (by decide) c3ThrowingValidator "boom" (List.mem_singleton.mpr rfl) rfl
  have hp := h.2.2 1 (by decide) [] c3ThrowingProcessor [] c3good "pow" rfl rfl rfl
  refine ⟨hv.1, ?_, hv.2.2, hp, ?_⟩
  · have := hv.2.1
    simpa [c3ThrowingValidator] using this
  · rw [h.1.1]
    decide

theorem duplicatePathValidator_flags {contents : List Content} (config : Json) (now : String)
    {k m : Nat} (hk : k < contents.length) (hm : m < contents.length) (hmk : m ≠ k)
    (hpath : contents[m].path = contents[k].path) :
    duplicatePathValidator.validate contents[k] (processingContextAt contents k config now)
      = .ok { isValid := false
              errors := ["Duplicate path found: " ++ contents[k].path]
              warnings := [] } := by
  unfold duplicatePathValidator
  simp only
  rw [if_pos]
  have hmem : ((m, contents[m]) : Nat × Content) ∈ contents.enum.filter
      (fun other => other.1 != k && other.2.path == contents[k].path) := by
    rw [List.mem_filter]
    constructor
    · exact List.mem_enum_iff_getElem?.mpr (by simp [List.getElem?_eq_getElem hm])
    · simp [hmk, hpath]
  have := List.length_pos.mpr (List.ne_nil_of_mem hmem)
  simpa using this

/-- C4: when two distinct indices of the input share the exact same path,
the built-in duplicate-path validator (registered in the pipeline) marks
every record carrying that path invalid with a duplicate-path error — all
copies, not just later ones — each such record is dropped, and
`processedContents` is exactly the processing of the records with other
paths. -/
theorem c4_duplicate_path_symmetry (pipe : DefinitionProcessingPipeline)
    (contents : List Content) (config : Json) (now : String) (p : String)
    (hdup : duplicatePathValidator ∈ pipe.validators)
    (i j : Nat) (hi : i < contents.length) (hj : j < contents.length) (hij : i ≠ j)
    (hpi : contents[i].path = p) (hpj : contents[j].path = p) :
    (∀ k (hk : k < contents.length), contents[k].path = p →
      (validateContent pipe.validators contents[k]
        (processingContextAt contents k config now)).isValid = false
      ∧ ("Duplicate path found: " ++ p)
          ∈ (validateContent pipe.validators contents[k]
              (processingContextAt contents k config now)).errors
      ∧ processRecord pipe contents config now (k, contents[k]) = none)
    ∧ (processDefinitions pipe contents config now).processedContents
        = (contents.enum.filter (fun e => e.2.path != p)).filterMap
            (processRecord pipe contents config now) := by
  have main : ∀ k (hk : k < contents.length), contents[k].path = p →
      (validateContent pipe.validators contents[k]
        (processingContextAt contents k config now)).isValid = false
      ∧ ("Duplicate path found: " ++ p)
          ∈ (validateContent pipe.validators contents[k]
              (processingContextAt contents k config now)).errors
      ∧ processRecord pipe contents config now (k, contents[k]) = none := by
    intro k hk hkp
    have hm : ∃ m, ∃ hm : m < contents.length, m ≠ k ∧ contents[m].path = contents[k].path := by
      by_cases hki : k = i
      · subst hki
        exact ⟨j, hj, by omega, by rw [hpj, hpi]⟩
      · exact ⟨i, hi, fun hik => hki hik.symm, by rw [hpi, hkp]⟩
    obtain ⟨m, hmlt, hmk, hmp⟩ := hm
    have hflag := duplicatePathValidator_flags config now hk hmlt hmk hmp
    have hinv := validateContent_of_invalid hdup hflag rfl
      (by rw [hkp]; exact List.mem_singleton.mpr rfl)
    exact ⟨hinv.1, hinv.2, processRecord_eq_none_of_invalid hinv.1⟩
  refine ⟨main, ?_⟩
  rw [processDefinitions_eq]
  show contents.enum.filterMap (processRecord pipe contents config now) = _
  apply filterMap_eq_filter_filterMap
  intro e he hpred
  obtain ⟨hlt, hget⟩ := mem_enum_fact he
  have hpe : e.2.path = p := by
    simpa using hpred
  have := (main e.1 hlt (by rw [hget, hpe])).2.2
  rw [hget] at this
  rw [← Prod.mk.eta (p := e)]
  exact this

def c4pipe : DefinitionProcessingPipeline :=
  { processors := [], outputTransformers := [], validators := [duplicatePathValidator] }

def c4c : Content := { path := "x", struct := .null }

def c4contents : List Content := [c4c, c4c]

/-- Witness for C4: two records with the same path; both flagged and
excluded. -/
theorem c4_duplicate_path_symmetry_witness :
    (validateContent c4pipe.validators c4c
      (processingContextAt c4contents 0 .null "t")).isValid = false
    ∧ ("Duplicate path found: " ++ "x")
        ∈ (validateContent c4pipe.validators c4c
            (processingContextAt c4contents 0 .null "t")).errors
    ∧ processRecord c4pipe c4contents .null "t" (0, c4c) = none
    ∧ processRecord c4pipe c4contents .null "t" (1, c4c) = none
    ∧ (processDefinitions c4pipe c4contents .null "t").processedContents = [] := by
  have h := c4_duplicate_path_symmetry c4pipe c4contents .null "t" "x"
    (List.mem_singleton.mpr rfl) 0 1 (by decide) (by decide) (by decide) rfl rfl
  have h0 := h.1 0 (by decide) rfl
  have h1 := h.1 1 (by decide) rfl
  refine ⟨h0.1, h0.2.1, h0.2.2, h1.2.2, ?_⟩
  rw [h.2]
  decide

/-- C2 counterexample: a second consecutive `generateOutput` with no
intervening `clear()` does not leave `getStats` unchanged — the built-ins
are registered again and every count grows. -/
theorem c2_initialize_counterexample :
    ¬ ((generateOutput (generateOutput {} [] .null "t").2 [] .null "t").2.getStats
        = (generateOutput ({} : DefinitionProcessingPipeline) [] .null "t").2.getStats) := by
  decide

/-- C2 (amended): every `generateOutput` call guarantees the built-in
processors, validators and output transformer are registered afterwards,
even if the caller never registered them — but the initialization is not
idempotent: each call appends the built-ins again, adding exactly
(2 processors, 1 transformer, 2 validators) to the previous counts, so a
second consecutive call doubles rather than preserves the counts of a
fresh registry. -/
theorem c2_initialize_builtins_amended (pipe : DefinitionProcessingPipeline)
    (contents : List Content) (config : Json) (now : String) :
    pathNormalizer ∈ (generateOutput pipe contents config now).2.processors
    ∧ typeDetector ∈ (generateOutput pipe contents config now).2.processors
    ∧ pathValidator ∈ (generateOutput pipe contents config now).2.validators
    ∧ duplicatePathValidator ∈ (generateOutput pipe contents config now).2.validators
    ∧ metadataEnricher ∈ (generateOutput pipe contents config now).2.outputTransformers
    ∧ (generateOutput pipe contents config now).2.getStats
        = { processors := pipe.processors.length + 2
            transformers := pipe.outputTransformers.length + 1
            validators := pipe.validators.length + 2 } := by
  have hreg : (generateOutput pipe contents config now).2 = initializePipeline pipe := rfl
  rw [hreg]
  unfold initializePipeline registerBuiltInProcessors registerBuiltInValidators
    registerBuiltInOutputTransformers DefinitionProcessingPipeline.addProcessor
    DefinitionProcessingPipeline.addValidator DefinitionProcessingPipeline.addOutputTransformer
  refine ⟨?_, ?_, ?_, ?_, ?_, ?_⟩ <;> simp [DefinitionProcessingPipeline.getStats]

end AtMyApp

namespace AtMyApp

/-! ## Claim C6: metadata enricher -/

theorem lookup_cons_key {α : Type} (k a : String) (b : α) (es : List (String × α)) :
    ((k, b) :: es).lookup a = if a = k then some b else es.lookup a := by
  rw [List.lookup_cons]
  by_cases h : a = k
  · simp [h]
  · simp [h, beq_eq_false_iff_ne.mpr h]

theorem lookup_eq_none_of_not_mem {α : Type} :
    ∀ (l : List (String × α)) (k : String), k ∉ l.map Prod.fst → l.lookup k = none
  | [], _, _ => rfl
  | (k₀, v₀) :: rest, k, h => by
    rw [List.map_cons, List.mem_cons] at h
    push_neg at h
    rw [lookup_cons_key, if_neg h.1]
    exact lookup_eq_none_of_not_mem rest k h.2

theorem lookup_map_set {α : Type} :
    ∀ (l : List (String × α)) (k : String) (v : α),
      l.any (fun kv => kv.1 == k) = true →
      (l.map (fun kv => if kv.1 == k then (kv.1, v) else kv)).lookup k = some v
  | [], _, _, h => by simp at h
  | kv :: rest, k, v, h => by
    rw [List.map_cons]
    by_cases hk : kv.1 = k
    · rw [if_pos (by simpa using hk)]
      rw [lookup_cons_key, if_pos hk.symm]
    · rw [if_neg (by simpa using hk)]
      rw [lookup_cons_key, if_neg (fun he => hk he.symm)]
      apply lookup_map_set
      rw [List.any_cons] at h
      simpa [hk] using h

theorem lookup_map_set_ne {α : Type} :
    ∀ (l : List (String × α)) (k : String) (v : α) (a : String), a ≠ k →
      (l.map (fun kv => if kv.1 == k then (kv.1, v) else kv)).lookup a = l.lookup a
  | [], _, _, _, _ => rfl
  | kv :: rest, k, v, a, h => by
    rw [List.map_cons]
    by_cases hk : kv.1 = k
    · rw [if_pos (by simpa using hk)]
      rw [lookup_cons_key, lookup_cons_key]
      rw [if_neg (by rw [hk]; exact h), if_neg (by rw [hk]; exact h)]
      exact lookup_map_set_ne rest k v a h
    · rw [if_neg (by simpa using hk)]
      obtain ⟨k₀, v₀⟩ := kv
      rw [lookup_cons_key, lookup_cons_key]
      by_cases ha : a = k₀
      · rw [if_pos ha, if_pos ha]
      · rw [if_neg ha, if_neg ha]
        exact lookup_map_set_ne rest k v a h

theorem lookup_append_single {α : Type} :
    ∀ (l : List (String × α)) (k : String) (v : α), l.lookup k = none →
      (l ++ [(k, v)]).lookup k = some v
  | [], k, v, _ => by rw [List.nil_append, lookup_cons_key, if_pos rfl]
  | (k₀, v₀) :: rest, k, v, h => by
    rw [lookup_cons_key] at h
    by_cases hk : k = k₀
    · rw [if_pos hk] at h
      cases h
    · rw [if_neg hk] at h
      rw [List.cons_append, lookup_cons_key, if_neg hk]
      exact lookup_append_single rest k v h

theorem lookup_append_single_ne {α : Type} :
    ∀ (l : List (String × α)) (k : String) (v : α) (a : String), a ≠ k →
      (l ++ [(k, v)]).lookup a = l.lookup a
  | [], k, v, a, h => by
    rw [List.nil_append, lookup_cons_key, if_neg h]
  | (k₀, v₀) :: rest, k, v, a, h => by
    rw [List.cons_append, lookup_cons_key, lookup_cons_key]
    by_cases ha : a = k₀
    · rw [if_pos ha, if_pos ha]
    · rw [if_neg ha, if_neg ha]
      exact lookup_append_single_ne rest k v a h

theorem lookup_jsObjectSet_self {α : Type} (l : List (String × α)) (k : String) (v : α) :
    (jsObjectSet l k v).lookup k = some v := by
  unfold jsObjectSet
  by_cases hany : l.any (fun kv => kv.1 == k) = true
  · rw [if_pos hany]
    exact lookup_map_set l k v hany
  · rw [if_neg hany]
    apply lookup_append_single
    apply lookup_eq_none_of_not_mem
    intro hmem
    apply hany
    rw [List.any_eq_true]
    obtain ⟨kv, hkv, hfst⟩ := List.mem_map.mp hmem
    exact ⟨kv, hkv, by simp [hfst]⟩

theorem lookup_jsObjectSet_ne {α : Type} (l : List (String × α)) (k : String) (v : α)
    (a : String) (h : a ≠ k) : (jsObjectSet l k v).lookup a = l.lookup a := by
  unfold jsObjectSet
  by_cases hany : l.any (fun kv => kv.1 == k) = true
  · rw [if_pos hany]
    exact lookup_map_set_ne l k v a h
  · rw [if_neg hany]
    exact lookup_append_single_ne l k v a h

theorem lookup_spreadMerge :
    ∀ (overlay base : List (String × Json)) (k : String),
      (overlay.map Prod.fst).Nodup →
      (spreadMerge base overlay).lookup k = ((overlay.lookup k).or (base.lookup k))
  | [], base, k, _ => by simp [spreadMerge]
  | (k₀, v₀) :: rest, base, k, h => by
    rw [List.map_cons, List.nodup_cons] at h
    have hstep : spreadMerge base ((k₀, v₀) :: rest)
        = spreadMerge (jsObjectSet base k₀ v₀) rest := rfl
    rw [hstep, lookup_spreadMerge rest _ k h.2]
    by_cases hkk : k = k₀
    · subst hkk
      rw [lookup_eq_none_of_not_mem rest k h.1, lookup_jsObjectSet_self,
        lookup_cons_key, if_pos rfl]
      rfl
    · rw [lookup_jsObjectSet_ne base k₀ v₀ k hkk, lookup_cons_key, if_neg hkk]

end AtMyApp

namespace AtMyApp

/-- C6: the built-in metadata enricher attaches a metadata object built from
`generatedAt` (the run timestamp), `totalDefinitions` (the key count of
`definitions` — the length of the unique-key association list),
`totalEvents`, and `version = "1.0.0"`, shallow-overlaid by the
caller-supplied `config.metadata` so that caller values win on every key
collision, `version` included; keys the caller does not supply keep the
generated values. -/
theorem c6_metadata_enricher (output : OutputDefinition) (context : ProcessingContext)
    (callerMeta : List (String × Json))
    (hmeta : context.config.getProp "metadata" = some (.obj callerMeta))
    (hnodup : (callerMeta.map Prod.fst).Nodup) :
    ∃ m : List (String × Json),
      metadataEnricher.transform output context = .ok { output with metadata := some m }
      ∧ (∀ k v, callerMeta.lookup k = some v → m.lookup k = some v)
      ∧ (callerMeta.lookup "generatedAt" = none →
          m.lookup "generatedAt" = some (.str context.now))
      ∧ (callerMeta.lookup "totalDefinitions" = none →
          m.lookup "totalDefinitions" = some (.num (output.definitions.length : Int)))
      ∧ (callerMeta.lookup "totalEvents" = none →
          m.lookup "totalEvents" = some (.num (output.events.length : Int)))
      ∧ (callerMeta.lookup "version" = none →
          m.lookup "version" = some (.str "1.0.0")) := by
  refine ⟨spreadMerge (enricherBaseMetadata output context.now) callerMeta, ?_, ?_, ?_, ?_, ?_, ?_⟩
  · have hc : callerMetadata context.config = callerMeta := by
      unfold callerMetadata
      rw [hmeta]
    have hstep : metadataEnricher.transform output context
        = Except.ok { output with metadata := some (spreadMerge
            (enricherBaseMetadata output context.now) (callerMetadata context.config)) } := rfl
    rw [hstep, hc]
  · intro k v hv
    rw [lookup_spreadMerge callerMeta _ k hnodup, hv]
    rfl
  · intro hnone
    rw [lookup_spreadMerge callerMeta _ _ hnodup, hnone]
    simp [enricherBaseMetadata, lookup_cons_key]
  · intro hnone
    rw [lookup_spreadMerge callerMeta _ _ hnodup, hnone]
    simp [enricherBaseMetadata, lookup_cons_key]
  · intro hnone
    rw [lookup_spreadMerge callerMeta _ _ hnodup, hnone]
    simp [enricherBaseMetadata, lookup_cons_key]
  · intro hnone
    rw [lookup_spreadMerge callerMeta _ _ hnodup, hnone]
    simp [enricherBaseMetadata, lookup_cons_key]

def c6output : OutputDefinition :=
  { description := "AMA Definitions"
    definitions := [("hero.json", { type := some "jsonx", struct := .null })]
    events := []
    args := .obj [] }

def c6context : ProcessingContext :=
  { config := .obj [("metadata", .obj [("version", .str "2.0.0"), ("owner", .str "me")])]
    allContents := []
    currentIndex := 0
    now := "2026-01-01T00:00:00.000Z" }

/-- Witness for C6 at a concrete output and caller metadata overriding
`version`. -/
theorem c6_metadata_enricher_witness :
    ∃ m : List (String × Json),
      metadataEnricher.transform c6output c6context = .ok { c6output with metadata := some m }
      ∧ (∀ k v, ([("version", Json.str "2.0.0"), ("owner", Json.str "me")].lookup k = some v →
          m.lookup k = some v))
      ∧ ([("version", Json.str "2.0.0"), ("owner", Json.str "me")].lookup "generatedAt" = none →
          m.lookup "generatedAt" = some (.str c6context.now))
      ∧ ([("version", Json.str "2.0.0"), ("owner", Json.str "me")].lookup "totalDefinitions" = none →
          m.lookup "totalDefinitions" = some (.num (c6output.definitions.length : Int)))
      ∧ ([("version", Json.str "2.0.0"), ("owner", Json.str "me")].lookup "totalEvents" = none →
          m.lookup "totalEvents" = some (.num (c6output.events.length : Int)))
      ∧ ([("version", Json.str "2.0.0"), ("owner", Json.str "me")].lookup "version" = none →
          m.lookup "version" = some (.str "1.0.0")) :=
  c6_metadata_enricher c6output c6context
    [("version", .str "2.0.0"), ("owner", .str "me")] rfl (by decide)

end AtMyApp

namespace AtMyApp

/-! ## Claim C7: idempotence of `processSpecialTypes` -/

theorem processSpecialTypesList_eq_self :
    ∀ (l : List Json), (∀ x ∈ l, processSpecialTypes x = x) → processSpecialTypesList l = l
  | [], _ => rfl
  | x :: xs, h => by
    show processSpecialTypes x :: processSpecialTypesList xs = x :: xs
    rw [h x (List.mem_cons_self x xs),
      processSpecialTypesList_eq_self xs (fun y hy => h y (List.mem_cons_of_mem x hy))]

theorem processSpecialTypesEntries_eq_self :
    ∀ (l : List (String × Json)), (∀ kv ∈ l, processSpecialTypes kv.2 = kv.2) →
      processSpecialTypesEntries l = l
  | [], _ => rfl
  | (k, v) :: rest, h => by
    show (k, processSpecialTypes v) :: processSpecialTypesEntries rest = (k, v) :: rest
    rw [h (k, v) (List.mem_cons_self _ _),
      processSpecialTypesEntries_eq_self rest (fun y hy => h y (List.mem_cons_of_mem _ hy))]

theorem matchFreeList_spec :
    ∀ {l : List Json}, matchFreeList l = true → ∀ x ∈ l, matchFree x = true
  | [], _, x, hx => absurd hx (List.not_mem_nil x)
  | y :: ys, h, x, hx => by
    have h' : matchFree y = true ∧ matchFreeList ys = true := by
      simpa [matchFreeList, Bool.and_eq_true] using h
    rcases List.mem_cons.mp hx with heq | hmem
    · rw [heq]
      exact h'.1
    · exact matchFreeList_spec h'.2 x hmem

theorem matchFreeEntries_spec :
    ∀ {l : List (String × Json)}, matchFreeEntries l = true → ∀ kv ∈ l, matchFree kv.2 = true
  | [], _, kv, hkv => absurd hkv (List.not_mem_nil kv)
  | (k, v) :: rest, h, kv, hkv => by
    have h' : matchFree v = true ∧ matchFreeEntries rest = true := by
      simpa [matchFreeEntries, Bool.and_eq_true] using h
    rcases List.mem_cons.mp hkv with heq | hmem
    · rw [heq]
      exact h'.1
    · exact matchFreeEntries_spec h'.2 kv hmem

/-- A value without any rule-matching sub-node is a fixed point of
`processSpecialTypes`. -/
theorem processSpecialTypes_eq_self : ∀ {j : Json}, matchFree j = true →
    processSpecialTypes j = j := by
  suffices H : ∀ (n : Nat) (j : Json), sizeOf j ≤ n → matchFree j = true →
      processSpecialTypes j = j by
    intro j h
    exact H (sizeOf j) j le_rfl h
  intro n
  induction n using Nat.strong_induction_on with
  | _ n ih =>
    intro j hsize hfree
    cases j with
    | null => rfl
    | bool b => rfl
    | num m => rfl
    | str s => rfl
    | arr elems =>
      show Json.arr (processSpecialTypesList elems) = Json.arr elems
      rw [processSpecialTypesList_eq_self elems]
      intro x hx
      have hxsize : sizeOf x < sizeOf (Json.arr elems) := by
        have := List.sizeOf_lt_of_mem hx
        simp
        omega
      exact ih (sizeOf x) (by omega) x le_rfl
        (matchFreeList_spec (by simpa [matchFree] using hfree) x hx)
    | obj entries =>
      have hparts : typeTransformers.all (fun t => !t.canTransform (.obj entries)) = true
          ∧ matchFreeEntries entries = true := by
        simpa [matchFree, Bool.and_eq_true] using hfree
      have hfind : typeTransformers.find? (fun t => t.canTransform (.obj entries)) = none := by
        rw [List.find?_eq_none]
        intro t ht
        have := List.all_eq_true.mp hparts.1 t ht
        simpa using this
      show (match typeTransformers.find? (fun t => t.canTransform (.obj entries)) with
            | some t => t.transform (.obj entries)
            | none => Json.obj (processSpecialTypesEntries entries)) = Json.obj entries
      rw [hfind]
      show Json.obj (processSpecialTypesEntries entries) = Json.obj entries
      rw [processSpecialTypesEntries_eq_self entries]
      intro kv hkv
      have hkvsize : sizeOf kv.2 < sizeOf (Json.obj entries) := by
        have h1 := List.sizeOf_lt_of_mem hkv
        obtain ⟨k, v⟩ := kv
        simp at h1 ⊢
        omega
      exact ih (sizeOf kv.2) (by omega) kv.2 le_rfl
        (matchFreeEntries_spec hparts.2 kv hkv)

/-- A pre-transform asset shape whose `__config` constants are scalars. -/
def innerShape : Json :=
  .obj [("properties", .obj [("__amatype", .obj [("const", .str "AmaImageDef")]),
                             ("__config", .obj [("properties", .obj [("x", .obj [("const", .num 1)])])])])]

/-- The `__config` sub-schema of `innerShape`. -/
def innerCfg : Json := .obj [("properties", .obj [("x", .obj [("const", .num 1)])])]

theorem extractConstants_innerCfg : extractConstants innerCfg = some (.obj [("x", .num 1)]) := by
  simp [innerCfg, extractConstants, extractConstantsProps, extractConstantsEntries,
    extractConstantsItem, Json.truthy, Json.hasKey, Json.getProp, List.lookup]

theorem processSpecialTypes_innerShape_step : processSpecialTypes innerShape
    = .obj [("__amatype", .str "AmaImageDef"), ("config", (extractConstants innerCfg).getD .null)] := rfl

theorem processSpecialTypes_innerShape : processSpecialTypes innerShape
    = .obj [("__amatype", .str "AmaImageDef"), ("config", .obj [("x", .num 1)])] := by
  rw [processSpecialTypes_innerShape_step, extractConstants_innerCfg]
  rfl

/-- A pre-transform asset shape that smuggles another pre-transform shape
inside a `__config` constant: the transform copies the payload verbatim into
its output, where a second pass transforms it again. -/
def c7cex : Json :=
  .obj [("properties", .obj [("__amatype", .obj [("const", .str "AmaImageDef")]),
                             ("__config", .obj [("properties", .obj [("a", .obj [("const", innerShape)])])])])]

/-- The `__config` sub-schema of `c7cex`. -/
def c7cexCfg : Json := .obj [("properties", .obj [("a", .obj [("const", innerShape)])])]

theorem extractConstants_c7cexCfg : extractConstants c7cexCfg = some (.obj [("a", innerShape)]) := by
  simp [c7cexCfg, extractConstants, extractConstantsProps, extractConstantsEntries,
    extractConstantsItem, Json.truthy, Json.hasKey, Json.getProp, List.lookup]

theorem processSpecialTypes_c7cex_step : processSpecialTypes c7cex
    = .obj [("__amatype", .str "AmaImageDef"), ("config", (extractConstants c7cexCfg).getD .null)] := rfl

theorem processSpecialTypes_c7cex : processSpecialTypes c7cex
    = .obj [("__amatype", .str "AmaImageDef"), ("config", .obj [("a", innerShape)])] := by
  rw [processSpecialTypes_c7cex_step, extractConstants_c7cexCfg]
  rfl

theorem processSpecialTypes_c7cex_again :
    processSpecialTypes (.obj [("__amatype", .str "AmaImageDef"), ("config", .obj [("a", innerShape)])])
    = .obj [("__amatype", .str "AmaImageDef"), ("config", .obj [("a", processSpecialTypes innerShape)])] := rfl

/-- C7 counterexample: `c7cex` is itself a pre-transform shape (a built-in
rule matches it, so it is not "already in transformed form"), yet
`processSpecialTypes` is not idempotent at it — the transform copies a
pre-transform shape hidden in a `__config` constant verbatim into its
output, and the second pass rewrites it. -/
theorem c7_idempotence_counterexample :
    typeTransformers.any (fun t => t.canTransform c7cex) = true
    ∧ processSpecialTypes (processSpecialTypes c7cex) ≠ processSpecialTypes c7cex := by
  constructor
  · decide
  · rw [processSpecialTypes_c7cex, processSpecialTypes_c7cex_again,
      processSpecialTypes_innerShape]
    intro h
    injection h with h
    simp_all [innerShape]

/-- C7 (amended): `processSpecialTypes` is idempotent at every `x` whose
image contains no node matching a transform rule (`matchFree`); the original
guard — `x` not itself already in transformed form — is insufficient,
because `__config` constants can embed pre-transform shapes that the
transform copies verbatim into the image. -/
theorem c7_idempotence_amended (x : Json)
    (h : matchFree (processSpecialTypes x) = true) :
    processSpecialTypes (processSpecialTypes x) = processSpecialTypes x :=
  processSpecialTypes_eq_self h

/-- Witness for C7 (amended) at a concrete pre-transform shape with scalar
constants. -/
theorem c7_idempotence_amended_witness :
    matchFree (processSpecialTypes innerShape) = true
    ∧ processSpecialTypes (processSpecialTypes innerShape) = processSpecialTypes innerShape := by
  have hm : matchFree (processSpecialTypes innerShape) = true := by
    rw [processSpecialTypes_innerShape]
    decide
  exact ⟨hm, c7_idempotence_amended innerShape hm⟩

end AtMyApp

namespace AtMyApp

/-! ## Claim C1: parallel vs sequential extraction -/

theorem seqExtractEventId_of_worker {props : Json}
    (h : (workerExtractEventId props).truthy = true) :
    seqExtractEventId props = workerExtractEventId props := by
  unfold seqExtractEventId workerExtractEventId at *
  cases h1 : truthyOpt (props.getPath ["id", "const"]) with
  | true => simp [h1]
  | false =>
    rw [if_neg (by simp [h1])] at h
    cases h

theorem seqExtractColumns_of_worker {props : Json}
    (h : jsLengthIsZero (workerExtractColumns props) = false) :
    seqExtractColumns props = workerExtractColumns props := by
  unfold workerExtractColumns at h
  unfold seqExtractColumns workerExtractColumns
  cases ht2 : truthyOpt (props.getPath ["columns", "const"]) with
  | true => simp [ht2]
  | false =>
    simp only [ht2, Bool.false_eq_true, if_false] at h ⊢
    cases ht3 : truthyOpt (props.getPath ["columns", "items", "const"]) with
    | true => simp [ht3]
    | false =>
      simp only [ht3, Bool.false_eq_true, if_false] at h ⊢
      cases hit : props.getPath ["columns", "items"] with
      | none =>
        rw [hit] at h
        simp [jsLengthIsZero] at h
      | some j =>
        rw [hit] at h
        cases j with
        | arr items => rfl
        | null => simp [jsLengthIsZero] at h
        | bool b => simp [jsLengthIsZero] at h
        | num n => simp [jsLengthIsZero] at h
        | str s => simp [jsLengthIsZero] at h
        | obj entries => simp [jsLengthIsZero] at h

theorem workerProcessEntry_refines (entry : DefEntrySchema) (c : RawContent)
    (h : workerProcessEntry entry = some c) : seqProcessEntry entry = some c := by
  obtain ⟨schemaOpt, astEvent⟩ := entry
  cases schemaOpt with
  | none => simp [workerProcessEntry] at h
  | some schema =>
    simp only [workerProcessEntry] at h
    simp only [seqProcessEntry]
    cases hp : schema.getProp "properties" with
    | none => simp [hp] at h
    | some props =>
      simp only [hp] at h ⊢
      cases htr : props.truthy with
      | false => simp [htr] at h
      | true =>
        simp only [htr, if_true] at h ⊢
        by_cases hev : isEventDefProps props = true
        case neg =>
          rw [if_neg hev] at h
          unfold seqExtractFromProps
          rw [if_neg hev]
          exact h
        case pos =>
          rw [if_pos hev] at h
          unfold seqExtractFromProps
          rw [if_pos hev]
          unfold processEventDefinition at h
          cases hid : (workerExtractEventId props).truthy with
          | false => simp [hid] at h
          | true =>
            rw [seqExtractEventId_of_worker hid]
            simp only [hid, Bool.not_true, Bool.false_eq_true, if_false] at h ⊢
            cases hlen : jsLengthIsZero (workerExtractColumns props) with
            | true => simp [hlen] at h
            | false =>
              rw [seqExtractColumns_of_worker hlen]
              simp only [hlen, Bool.false_eq_true, if_false] at h ⊢
              exact h

theorem filterMap_sublist_of_refines {α β : Type} {g f : α → Option β}
    (h : ∀ a c, g a = some c → f a = some c) :
    ∀ l : List α, (l.filterMap g).Sublist (l.filterMap f)
  | [] => List.Sublist.refl []
  | a :: t => by
    rw [List.filterMap_cons, List.filterMap_cons]
    cases hg : g a with
    | some c =>
      rw [h a c hg]
      exact List.Sublist.cons₂ c (filterMap_sublist_of_refines h t)
    | none =>
      cases hf : f a with
      | some b => exact List.Sublist.cons b (filterMap_sublist_of_refines h t)
      | none => exact filterMap_sublist_of_refines h t

theorem fileFold_spec (step : ProcessingResult → List DefEntrySchema → ProcessingResult)
    (ex : List DefEntrySchema → List RawContent)
    (hstep : ∀ acc file, step acc file =
      { acc with
          contents := acc.contents ++ ex file
          successCount := acc.successCount + (ex file).length }) :
    ∀ (files : List (List DefEntrySchema)) (acc : ProcessingResult),
      files.foldl step acc =
        { acc with
            contents := acc.contents ++ (files.map ex).flatten
            successCount := acc.successCount + ((files.map ex).flatten).length }
  | [], acc => by simp
  | f :: fs, acc => by
    rw [List.foldl_cons, hstep, fileFold_spec step ex hstep fs _]
    simp [List.append_assoc]
    omega

theorem processFiles_spec (files : List (List DefEntrySchema)) :
    processFiles files =
      { contents := (files.map (fun file => file.filterMap seqProcessEntry)).flatten
        errors := []
        successCount := ((files.map (fun file => file.filterMap seqProcessEntry)).flatten).length
        failureCount := 0 } := by
  unfold processFiles
  rw [fileFold_spec seqFileStep (fun file => file.filterMap seqProcessEntry)
    (fun acc file => rfl) files _]
  simp

theorem processFilesParallel_spec (files : List (List DefEntrySchema)) :
    processFilesParallel files [] =
      { contents := (files.map (fun file => file.filterMap workerProcessEntry)).flatten
        errors := []
        successCount := ((files.map (fun file => file.filterMap workerProcessEntry)).flatten).length
        failureCount := 0 } := by
  unfold processFilesParallel
  rw [fileFold_spec workerFileStep (fun file => file.filterMap workerProcessEntry)
    (fun acc file => rfl) files _]
  simp

theorem flatten_map_sublist (files : List (List DefEntrySchema)) :
    ((files.map (fun file => file.filterMap workerProcessEntry)).flatten).Sublist
      ((files.map (fun file => file.filterMap seqProcessEntry)).flatten) := by
  induction files with
  | nil => exact List.Sublist.refl []
  | cons f fs ih =>
    rw [List.map_cons, List.map_cons, List.flatten_cons, List.flatten_cons]
    exact List.Sublist.append
      (filterMap_sublist_of_refines workerProcessEntry_refines f) ih

end AtMyApp

namespace AtMyApp

/-- An event schema encoded via a single-valued `id.enum` (a compatibility
fallback the sequential extractor supports and the worker lacks). -/
def c1props : Json :=
  .obj [("type", .obj [("const", .str "event")]),
        ("id", .obj [("enum", .arr [.str "sig"])]),
        ("columns", .obj [("const", .arr [.str "a"])])]

def c1entry : DefEntrySchema :=
  { schema := some (.obj [("properties", c1props)]), astEvent := none }

def c1files : List (List DefEntrySchema) := [[c1entry]]

/-- C1 counterexample: on a one-file input whose single event definition
encodes its id through a single-valued `enum`, the sequential path extracts
the event while the parallel worker drops it, so the (path, structure) sets
and the `successCount`s of the two `ProcessingResult`s differ. -/
theorem c1_equivalence_counterexample :
    (processFiles c1files).successCount = 1
    ∧ (processFilesParallel c1files []).successCount = 0
    ∧ (processFiles c1files).contents = [eventRawContent (.str "sig") (.arr [.str "a"])]
    ∧ (processFilesParallel c1files []).contents = []
    ∧ ¬ ((∀ pc : RawContent,
            pc ∈ (processFilesParallel c1files []).contents
              ↔ pc ∈ (processFiles c1files).contents)
          ∧ (processFilesParallel c1files []).successCount
              = (processFiles c1files).successCount
          ∧ (processFilesParallel c1files []).failureCount
              = (processFiles c1files).failureCount) := by
  refine ⟨by decide, by decide, by decide, by decide, ?_⟩
  intro h
  have hcount := h.2.1
  rw [show (processFilesParallel c1files []).successCount = 0 from by decide,
    show (processFiles c1files).successCount = 1 from by decide] at hcount
  cases hcount

/-- C1 (amended): the parallel path refines the sequential path rather than
matching it. Every definition the worker extracts, the sequential extractor
extracts identically, so (with no MDX configs collected by the parallel
post-pass) the parallel contents are a sublist of the sequential contents,
`successCount` is at most the sequential one, and `errors`/`failureCount`
agree; but the converse fails — the sequential path's extra id/columns
fallbacks and its AST fallback can extract events the worker misses. -/
theorem c1_parallel_refines_sequential :
    (∀ entry c, workerProcessEntry entry = some c → seqProcessEntry entry = some c)
    ∧ ∀ files : List (List DefEntrySchema),
        ((processFilesParallel files []).contents.Sublist (processFiles files).contents)
        ∧ (processFilesParallel files []).successCount ≤ (processFiles files).successCount
        ∧ (processFilesParallel files []).errors = (processFiles files).errors
        ∧ (processFilesParallel files []).failureCount = (processFiles files).failureCount := by
  refine ⟨workerProcessEntry_refines, fun files => ?_⟩
  rw [processFiles_spec, processFilesParallel_spec]
  exact ⟨flatten_map_sublist files,
    List.Sublist.length_le (flatten_map_sublist files), rfl, rfl⟩

/-- An event schema using the shared `id.const`/`columns.const` encodings,
extracted identically by both paths. -/
def c1sharedProps : Json :=
  .obj [("type", .obj [("const", .str "event")]),
        ("id", .obj [("const", .str "sig")]),
        ("columns", .obj [("const", .arr [.str "a"])])]

def c1sharedEntry : DefEntrySchema :=
  { schema := some (.obj [("properties", c1sharedProps)]), astEvent := none }

/-- Witness for C1 (amended): a worker-extractable entry is extracted
identically by the sequential path, and the aggregate refinement holds on a
concrete file set. -/
theorem c1_parallel_refines_sequential_witness :
    workerProcessEntry c1sharedEntry
      = some (eventRawContent (.str "sig") (.arr [.str "a"]))
    ∧ seqProcessEntry c1sharedEntry
      = some (eventRawContent (.str "sig") (.arr [.str "a"]))
    ∧ ((processFilesParallel [[c1sharedEntry]] []).contents.Sublist
        (processFiles [[c1sharedEntry]]).contents) :=
  ⟨by decide,
   c1_parallel_refines_sequential.1 c1sharedEntry
     (eventRawContent (.str "sig") (.arr [.str "a"])) (by decide),
   (c1_parallel_refines_sequential.2 [[c1sharedEntry]]).1⟩

end AtMyApp

namespace AtMyApp

/-! ## Claim C8: worker-pool sizing -/

/-- C8 counterexample: a caller-requested `maxWorkers` is not capped at 8 —
requesting 9 workers with 9 queued tasks creates 9 workers. -/
theorem c8_worker_cap_counterexample :
    workersToCreate (some 9) 4 9 = 9 ∧ ¬ workersToCreate (some 9) 4 9 ≤ 8 := by
  decide

/-- C8 (amended): the pool never creates more workers than tasks, and the
8-cap applies only to the default sizing — with no requested value (or the
falsy `0`) the pool is `min(min(cpus, 8), tasks)`, while a non-zero
requested value is used as-is, `min(requested, tasks)`, uncapped. -/
theorem c8_worker_pool_sizing (maxWorkers : Option Nat) (cpuCount taskCount : Nat) :
    workersToCreate maxWorkers cpuCount taskCount ≤ taskCount
    ∧ (maxWorkers = none →
        workersToCreate maxWorkers cpuCount taskCount = min (min cpuCount 8) taskCount)
    ∧ (maxWorkers = some 0 →
        workersToCreate maxWorkers cpuCount taskCount = min (min cpuCount 8) taskCount)
    ∧ (∀ n, maxWorkers = some n → n ≠ 0 →
        workersToCreate maxWorkers cpuCount taskCount = min n taskCount)
    ∧ ((maxWorkers = none ∨ maxWorkers = some 0) →
        workersToCreate maxWorkers cpuCount taskCount ≤ 8) := by
  unfold workersToCreate workerPoolMaxWorkers
  refine ⟨?_, ?_, ?_, ?_, ?_⟩
  · cases maxWorkers with
    | none => omega
    | some n => by_cases h : n = 0 <;> simp [h] <;> omega
  · intro h
    rw [h]
  · intro h
    rw [h]
    simp
  · intro n h hn
    rw [h]
    simp [hn]
  · intro h
    rcases h with h | h <;> rw [h] <;> simp <;> omega

/-- Witness for C8 (amended): default sizing caps at 8 on a 16-cpu host
with 100 tasks; a requested 9 is used uncapped. -/
theorem c8_worker_pool_sizing_witness :
    workersToCreate none 16 100 ≤ 100
    ∧ workersToCreate none 16 100 = min (min 16 8) 100
    ∧ workersToCreate (some 9) 16 100 = min 9 100
    ∧ workersToCreate none 16 100 ≤ 8 :=
  ⟨(c8_worker_pool_sizing none 16 100).1,
   (c8_worker_pool_sizing none 16 100).2.1 rfl,
   (c8_worker_pool_sizing (some 9) 16 100).2.2.2.1 9 rfl (by decide),
   (c8_worker_pool_sizing none 16 100).2.2.2.2 (Or.inl rfl)⟩

end AtMyApp

namespace AtMyApp

theorem convertPropsEntries_none_logs :
    ∀ (l : List (String × Json)) (bc : String),
      (convertPropsEntries l bc).1 = none → (convertPropsEntries l bc).2 ≠ []
  | [], bc, h => by simp [convertPropsEntries] at h
  | (childName, childSchema) :: rest, bc, h => by
    rw [convertPropsEntries] at h ⊢
    cases hcf : convertField childSchema childName (bc ++ "." ++ childName) with
    | mk o logs =>
      cases o with
      | none => simp
      | some conv =>
        cases hrest : convertPropsEntries rest bc with
        | mk o2 logs2 =>
          cases o2 with
          | none =>
            have hne := convertPropsEntries_none_logs rest bc (by rw [hrest])
            rw [hrest] at hne
            simp only [ne_eq] at hne ⊢
            intro hcontra
            rw [List.append_eq_nil] at hcontra
            exact hne hcontra.2
          | some r =>
            rw [hcf, hrest] at h
            simp at h

theorem convertPropsElems_none_logs :
    ∀ (l : List Json) (i : Nat) (bc : String),
      (convertPropsElems i l bc).1 = none → (convertPropsElems i l bc).2 ≠ []
  | [], i, bc, h => by simp [convertPropsElems] at h
  | childSchema :: rest, i, bc, h => by
    rw [convertPropsElems] at h ⊢
    cases hcf : convertField childSchema (toString i) (bc ++ "." ++ toString i) with
    | mk o logs =>
      cases o with
      | none => simp
      | some conv =>
        cases hrest : convertPropsElems (i + 1) rest bc with
        | mk o2 logs2 =>
          cases o2 with
          | none =>
            have hne := convertPropsElems_none_logs rest (i + 1) bc (by rw [hrest])
            rw [hrest] at hne
            simp only [ne_eq] at hne ⊢
            intro hcontra
            rw [List.append_eq_nil] at hcontra
            exact hne hcontra.2
          | some r =>
            rw [hcf, hrest] at h
            simp at h

end AtMyApp

namespace AtMyApp

theorem convertObjectProperties_none_logs (schema : Json) (bc : String) (logs : List String)
    (h : convertObjectProperties schema bc = (none, logs)) : logs ≠ [] := by
  rw [convertObjectProperties] at h
  split at h
  · split at h
    · rename_i entries heq
      cases hc : convertPropsEntries entries bc with
      | mk o ls =>
        rw [hc] at h
        cases o with
        | none =>
          injection h with h1 h2
          subst h2
          have := convertPropsEntries_none_logs entries bc (by rw [hc])
          rw [hc] at this
          exact this
        | some r => simp at h
    · rename_i elems heq
      cases hc : convertPropsElems 0 elems bc with
      | mk o ls =>
        rw [hc] at h
        cases o with
        | none =>
          injection h with h1 h2
          subst h2
          have := convertPropsElems_none_logs elems 0 bc (by rw [hc])
          rw [hc] at this
          exact this
        | some r => simp at h
    · simp at h
  · simp at h

end AtMyApp

namespace AtMyApp

theorem convertArrayItems_none_logs_aux (s : Json) (fn bc : String) (ls : List String)
    (harr : convertArrayItems s fn bc = (none, ls))
    (ihitems : ∀ items, s.getProp "items" = some items →
      ∀ logs2, convertField items fn (bc ++ "[]") = (none, logs2) → logs2 ≠ []) :
    ls ≠ [] := by
  rw [convertArrayItems] at harr
  split at harr
  · rename_i items hi
    split at harr
    · exact ihitems items hi ls harr
    · injection harr with g1 g2
      subst g2
      simp
  · injection harr with g1 g2
    subst g2
    simp

theorem convertField_none_logs :
    ∀ (s : Json) (fn bc : String) (logs : List String),
      convertField s fn bc = (none, logs) → logs ≠ [] := by
  suffices H : ∀ (n : Nat) (s : Json), sizeOf s ≤ n → ∀ (fn bc : String) (logs : List String),
      convertField s fn bc = (none, logs) → logs ≠ [] by
    intro s fn bc logs h
    exact H (sizeOf s) s le_rfl fn bc logs h
  intro n
  induction n using Nat.strong_induction_on with
  | _ n ih =>
    intro s hsize fn bc logs h
    have harrcase : ∀ ls : List String, convertArrayItems s fn bc = (none, ls) → ls ≠ [] := by
      intro ls harr
      apply convertArrayItems_none_logs_aux s fn bc ls harr
      intro items hi logs2 h2
      have hlt := sizeOf_getProp_lt hi
      exact ih (sizeOf items) (by omega) items le_rfl fn (bc ++ "[]") logs2 h2
    have hobcase : ∀ ls : List String, convertObjectProperties s bc = (none, ls) → ls ≠ [] :=
      fun ls hob => convertObjectProperties_none_logs s bc ls hob
    rw [convertField] at h
    by_cases hobj : jsIsObject s = true
    case neg =>
      rw [if_neg hobj] at h
      injection h with h1 h2
      subst h2
      simp
    case pos =>
      rw [if_pos hobj] at h
      cases hasset : detectAmaAssetField s with
      | some a =>
        simp only [hasset] at h
        cases h
      | none =>
        simp only [hasset] at h
        cases hmdx : detectAmaMdxField s with
        | some m =>
          simp only [hmdx] at h
          cases h
        | none =>
          simp only [hmdx] at h
          cases hty : (inferType s).truthy with
          | false =>
            simp only [hty, Bool.not_false, if_true] at h
            injection h with h1 h2
            subst h2
            simp
          | true =>
            simp only [hty, Bool.not_true, Bool.false_eq_true, if_false] at h
            by_cases hint : inferType s = Json.str "integer"
            case pos =>
              rw [if_pos hint] at h
              have hsup : SUPPORTED_TYPES.contains "number" = true := by decide
              have hprim : PRIMITIVE_TYPES.contains "number" = true := by decide
              simp only [hsup, hprim, not_true, if_false, if_true, ite_true, ite_false] at h
              cases h
            case neg =>
              rw [if_neg hint] at h
              cases hinf : inferType s with
              | str t =>
                simp only [hinf] at h
                by_cases hsup : SUPPORTED_TYPES.contains t = true
                case neg =>
                  rw [if_pos (by simpa using hsup)] at h
                  injection h with h1 h2
                  subst h2
                  simp
                case pos =>
                  rw [if_neg (by simpa using hsup)] at h
                  by_cases hprim : PRIMITIVE_TYPES.contains t = true
                  case pos =>
                    rw [if_pos hprim] at h
                    cases h
                  case neg =>
                    rw [if_neg hprim] at h
                    by_cases harrt : t = "array"
                    case pos =>
                      rw [if_pos harrt] at h
                      cases harr : convertArrayItems s fn bc with
                      | mk o ls =>
                        rw [harr] at h
                        cases o with
                        | some items => cases h
                        | none =>
                          injection h with h1 h2
                          subst h2
                          exact harrcase _ harr
                    case neg =>
                      rw [if_neg harrt] at h
                      cases hob : convertObjectProperties s bc with
                      | mk o ls =>
                        rw [hob] at h
                        cases o with
                        | some pr =>
                          obtain ⟨props, required⟩ := pr
                          cases h
                        | none =>
                          injection h with h1 h2
                          subst h2
                          exact hobcase _ hob
              | null =>
                simp only [hinf] at h
                injection h with h1 h2
                subst h2
                simp
              | bool b =>
                simp only [hinf] at h
                injection h with h1 h2
                subst h2
                simp
              | num m =>
                simp only [hinf] at h
                injection h with h1 h2
                subst h2
                simp
              | arr elems =>
                simp only [hinf] at h
                injection h with h1 h2
                subst h2
                simp
              | obj entries =>
                simp only [hinf] at h
                injection h with h1 h2
                subst h2
                simp

end AtMyApp

namespace AtMyApp

theorem convertRowEntries_reserved (path : String) :
    ∀ rowProps : List (String × Json),
      (∃ fn ∈ rowProps.map Prod.fst, RESERVED_FIELD_NAMES.contains fn = true) →
      (convertRowEntries path rowProps).1 = none ∧ (convertRowEntries path rowProps).2 ≠ []
  | [], h => by simp at h
  | (fieldName, fieldSchema) :: rest, h => by
    rw [convertRowEntries]
    by_cases hr : RESERVED_FIELD_NAMES.contains fieldName = true
    case pos =>
      rw [if_pos hr]
      exact ⟨rfl, by simp⟩
    case neg =>
      rw [if_neg hr]
      have hrest : ∃ fn ∈ rest.map Prod.fst, RESERVED_FIELD_NAMES.contains fn = true := by
        obtain ⟨fn, hmem, hfn⟩ := h
        simp at hmem
        rcases hmem with hmem | hmem
        · exact absurd (hmem ▸ hfn) hr
        · exact ⟨fn, by simpa using hmem, hfn⟩
      cases hcf : convertField fieldSchema fieldName (path ++ "." ++ fieldName) with
      | mk o logs =>
        cases o with
        | none =>
          refine ⟨rfl, ?_⟩
          exact convertField_none_logs fieldSchema fieldName (path ++ "." ++ fieldName) logs hcf
        | some conv =>
          have ih := convertRowEntries_reserved path rest hrest
          cases hrec : convertRowEntries path rest with
          | mk o2 logs2 =>
            rw [hrec] at ih
            cases o2 with
            | none =>
              refine ⟨rfl, ?_⟩
              have h2 : logs2 ≠ [] := ih.2
              simp
              intro hlogs
              exact h2
            | some convertedRest => exact absurd ih.1 (by simp)

/-- C9: for every path and structure whose row type
(`properties.__rowType.properties`) contains a field named exactly `"id"` or
`"created_at"`, `convertAmaCollectionStructure` returns `null` (`none`) and
logs an error, regardless of whether every other field of the row type is
valid: the reserved field names are `RESERVED_FIELD_NAMES = ["id",
"created_at"]`, and the field loop aborts the whole conversion with an error
log on the first reserved name (every earlier failing field also logs). -/
theorem c9_reserved_field_rejection (path : String) (structure' : Json)
    (rtEntries rowProps : List (String × Json))
    (hrow : structure'.getPath ["properties", "__rowType"] = some (.obj rtEntries))
    (hty : inferType (.obj rtEntries) = .str "object")
    (hprops : rtEntries.lookup "properties" = some (.obj rowProps))
    (hres : ∃ fn ∈ rowProps.map Prod.fst, RESERVED_FIELD_NAMES.contains fn = true) :
    (convertAmaCollectionStructure path structure').1 = none ∧
    (convertAmaCollectionStructure path structure').2 ≠ [] := by
  have hic : isAmaCollectionStructure structure' = true := by
    unfold isAmaCollectionStructure
    rw [hrow]
    rfl
  have hmain := convertRowEntries_reserved path rowProps hres
  have hgp : (Json.obj rtEntries).getProp "properties" = some (.obj rowProps) := hprops
  have hred : convertAmaCollectionStructure path structure' =
      (match convertRowEntries path rowProps with
       | (none, logs) => (none, logs)
       | (some properties, logs) =>
         (some (convertAmaCollectionStructure.collectionOutput path structure'
           (.obj rtEntries) properties), logs)) := by
    unfold convertAmaCollectionStructure
    rw [if_neg (by simp [hic])]
    rw [hrow]
    simp only [Option.getD_some]
    rw [if_neg (by simp [hty])]
    rw [hgp]
  rw [hred]
  cases hrec : convertRowEntries path rowProps with
  | mk o logs =>
    rw [hrec] at hmain
    cases o with
    | none => exact ⟨rfl, hmain.2⟩
    | some properties => exact absurd hmain.1 (by simp)

/-- Witness for C9: a collection whose row type declares a field `"id"` is
rejected with a non-empty error log. -/
theorem c9_reserved_field_rejection_witness :
    (convertAmaCollectionStructure "content/items"
      (.obj [("properties", .obj [("__rowType", .obj
        [("type", .str "object"),
         ("properties", .obj [("id", .obj [("type", .str "string")])])])])])).1 = none ∧
    (convertAmaCollectionStructure "content/items"
      (.obj [("properties", .obj [("__rowType", .obj
        [("type", .str "object"),
         ("properties", .obj [("id", .obj [("type", .str "string")])])])])])).2 ≠ [] :=
  c9_reserved_field_rejection "content/items" _
    [("type", .str "object"),
     ("properties", .obj [("id", .obj [("type", .str "string")])])]
    [("id", .obj [("type", .str "string")])]
    (by decide) (by decide) (by decide) ⟨"id", by decide, by decide⟩

end AtMyApp

namespace AtMyApp

/-! ## Events with empty columns survive `generateOutput` -/

theorem truthyOpt_eq_truthy_getD (o : Option Json) :
    truthyOpt o = (o.getD .null).truthy := by
  cases o <;> rfl

theorem extractEventConfig_empty_columns (c : Content)
    (hid : truthyOpt (c.struct.getPath ["properties", "id", "const"]) = true)
    (hc1 : truthyOpt (c.struct.getPath ["properties", "columns", "const"]) = false)
    (hc2 : truthyOpt (c.struct.getPath ["properties", "columns", "items", "const"]) = false)
    (hc3 : truthyOpt (c.struct.getProp "columns") = false) :
    extractEventConfig c = some ⟨.arr []⟩ := by
  have hid2 : ((c.struct.getPath ["properties", "id", "const"]).getD .null).truthy = true := by
    rw [← truthyOpt_eq_truthy_getD]
    exact hid
  unfold extractEventConfig
  simp only [hc1, hc2, hc3, hid, hid2, Bool.false_eq_true, if_false, if_true]

theorem seqExtractFromProps_empty_columns (props : Json)
    (he : isEventDefProps props = true)
    (hcols : jsLengthIsZero (seqExtractColumns props) = true) :
    seqExtractFromProps props = none := by
  unfold seqExtractFromProps
  simp only [he, if_true]
  cases ht : (seqExtractEventId props).truthy
  · simp [ht]
  · simp [ht, hcols]

/-- C10: in `generateOutput`, a record classified as an event is kept
whenever an event id can be extracted, even when no columns can be
extracted: `extractEventConfig` returns `{ columns: [] }` when the
`properties.id.const` probe is truthy and every columns fallback fails, so
`events[eventId]` is emitted with an empty columns list instead of the
record being dropped — unlike the sequential extraction stage
(`seqExtractFromProps`), which drops an event definition whose extracted
columns have length zero. -/
theorem c10_event_kept_with_empty_columns
    (path : String) (struct config : Json) (now : String) (eid : Json)
    (hpath : ¬ jsTrim path = "")
    (hmf : matchFree struct = true)
    (hev : struct.getPath ["properties", "type", "const"] = some (.str "event"))
    (hid : struct.getPath ["properties", "id", "const"] = some eid)
    (hidt : eid.truthy = true)
    (hc1 : truthyOpt (struct.getPath ["properties", "columns", "const"]) = false)
    (hc2 : truthyOpt (struct.getPath ["properties", "columns", "items", "const"]) = false)
    (hc3 : truthyOpt (struct.getProp "columns") = false) :
    (∀ p t, extractEventConfig ⟨p, struct, t⟩ = some ⟨.arr []⟩) ∧
    (generateOutput ⟨[], [], []⟩ [⟨path, struct, none⟩] config now).1.events
      = [(jsString eid, ⟨.arr []⟩)] ∧
    (∀ props, isEventDefProps props = true →
      jsLengthIsZero (seqExtractColumns props) = true →
      seqExtractFromProps props = none) := by
  have hidT : truthyOpt (struct.getPath ["properties", "id", "const"]) = true := by
    rw [hid]
    exact hidt
  refine ⟨?_, ?_, ?_⟩
  · intro p t
    exact extractEventConfig_empty_columns ⟨p, struct, t⟩ hidT hc1 hc2 hc3
  · -- the whole pipeline run on the single event record
    have hdetect : detectType ⟨normalizePath path, struct, none⟩ = "event" := by
      unfold detectType
      rw [if_pos (Or.inr (Or.inl hev))]
    have hpv : pathValidator.validate ⟨path, struct, none⟩
        { config := config, allContents := [⟨path, struct, none⟩], currentIndex := 0, now := now }
        = .ok ⟨true, [], []⟩ := by
      show Except.ok (if jsTrim path = "" then
          (⟨false, ["Content path cannot be empty"], []⟩ : ValidationResult)
        else ⟨true, [], []⟩) = Except.ok (⟨true, [], []⟩ : ValidationResult)
      rw [if_neg hpath]
    have h1 : validateStep ⟨path, struct, none⟩
        { config := config, allContents := [⟨path, struct, none⟩], currentIndex := 0, now := now }
        ⟨true, [], []⟩ pathValidator = ⟨true, [], []⟩ := by
      unfold validateStep
      rw [hpv]
      rfl
    have h2 : validateStep ⟨path, struct, none⟩
        { config := config, allContents := [⟨path, struct, none⟩], currentIndex := 0, now := now }
        ⟨true, [], []⟩ duplicatePathValidator = ⟨true, [], []⟩ := rfl
    have hval : validateContent [pathValidator, duplicatePathValidator] ⟨path, struct, none⟩
        { config := config, allContents := [⟨path, struct, none⟩], currentIndex := 0, now := now }
        = ⟨true, [], []⟩ := by
      unfold validateContent
      rw [List.foldl_cons, h1, List.foldl_cons, h2, List.foldl_nil]
    have hrun : runProcessors [pathNormalizer, typeDetector] ⟨path, struct, none⟩
        { config := config, allContents := [⟨path, struct, none⟩], currentIndex := 0, now := now }
        = some ⟨normalizePath path, struct, some (detectType ⟨normalizePath path, struct, none⟩)⟩ := rfl
    have hrecord : processRecord (initializePipeline ⟨[], [], []⟩) [⟨path, struct, none⟩]
        config now (0, ⟨path, struct, none⟩)
        = some ⟨normalizePath path, struct, some "event"⟩ := by
      unfold processRecord
      simp only [processingContextAt]
      rw [show (initializePipeline ⟨[], [], []⟩).validators = [pathValidator, duplicatePathValidator] from rfl]
      rw [show (initializePipeline ⟨[], [], []⟩).processors = [pathNormalizer, typeDetector] from rfl]
      rw [hval]
      simp only [if_true]
      rw [hrun, hdetect]
    have hproc : (processDefinitions (initializePipeline ⟨[], [], []⟩) [⟨path, struct, none⟩]
        config now).processedContents = [⟨normalizePath path, struct, some "event"⟩] := by
      rw [processDefinitions_eq]
      show (([⟨path, struct, none⟩] : List Content).enum).filterMap _ = _
      rw [show ([⟨path, struct, none⟩] : List Content).enum
          = [(0, ⟨path, struct, none⟩)] from rfl]
      rw [List.filterMap_cons, hrecord]
      rfl
    have hdet2 : determineContentType ⟨normalizePath path, struct, some "event"⟩ = "event" := by
      unfold determineContentType
      rw [if_neg (by simp), if_pos (Or.inr (Or.inr (Or.inl hev)))]
    have hext : extractEventConfig ⟨normalizePath path, struct, some "event"⟩ = some ⟨.arr []⟩ :=
      extractEventConfig_empty_columns _ hidT hc1 hc2 hc3
    have hkey : generateOutputEventId ⟨normalizePath path, struct, some "event"⟩ = jsString eid := by
      unfold generateOutputEventId
      simp only [hid, Option.getD_some]
      simp [truthyOpt, hidt]
    have hsplit : generateOutputSplitStep ([], []) ⟨normalizePath path, struct, some "event"⟩
        = ([(jsString eid, ⟨.arr []⟩)], []) := by
      unfold generateOutputSplitStep
      rw [if_pos hdet2, hext, hkey]
      rfl
    have htrans : ∀ o : OutputDefinition,
        (transformOutput (initializePipeline ⟨[], [], []⟩) o config now).events = o.events :=
      fun o => rfl
    unfold generateOutput
    simp only [hproc, List.map_cons, List.map_nil, processSpecialTypes_eq_self hmf,
      List.foldl_cons, List.foldl_nil, hsplit]
    rw [htrans]
  · intro props he hcols
    exact seqExtractFromProps_empty_columns props he hcols

/-- Witness for C10: a lone event definition with
`properties.id.const = "click"` and no columns probe survives the full
`generateOutput` run as `events["click"] = { columns: [] }`, while the
sequential extraction stage drops the same properties object. -/
theorem c10_event_kept_with_empty_columns_witness :
    extractEventConfig ⟨"defs.ts",
      .obj [("properties", .obj [("type", .obj [("const", .str "event")]),
                                 ("id", .obj [("const", .str "click")])])], none⟩
      = some ⟨.arr []⟩ ∧
    (generateOutput ⟨[], [], []⟩
      [⟨"defs.ts", .obj [("properties", .obj [("type", .obj [("const", .str "event")]),
                                              ("id", .obj [("const", .str "click")])])], none⟩]
      (.obj []) "2024-01-01T00:00:00.000Z").1.events
      = [("click", ⟨.arr []⟩)] ∧
    seqExtractFromProps (.obj [("type", .obj [("const", .str "event")]),
                               ("id", .obj [("const", .str "click")])]) = none := by
  have h := c10_event_kept_with_empty_columns "defs.ts"
    (.obj [("properties", .obj [("type", .obj [("const", .str "event")]),
                                ("id", .obj [("const", .str "click")])])])
    (.obj []) "2024-01-01T00:00:00.000Z" (.str "click")
    (by decide) (by decide) (by decide) (by decide) (by decide)
    (by decide) (by decide) (by decide)
  exact ⟨h.1 "defs.ts" none, h.2.1,
    h.2.2 (.obj [("type", .obj [("const", .str "event")]),
                 ("id", .obj [("const", .str "click")])]) (by decide) (by decide)⟩

end AtMyApp
